import Mathlib

/-!
Shallow embedding of flag.h (v1.7.0 variant, the newest one in the repository)
for verification of the specification claims.

Modelling conventions:
* C strings are lists of characters (`CStr`); `argv` is a list of such strings.
* `unsigned long long` values are natural numbers; arithmetic that can wrap is
  taken modulo 2^64 explicitly.
* `errno` is threaded explicitly as a boolean meaning "errno = ERANGE"; library
  conversions set it on a range error and leave it unchanged otherwise.
* `strtof` and `strtod` are platform floating-point conversions.  They are kept
  abstract: the development is parameterized by a `Platform` record holding the
  two conversions, the FLT_MAX and DBL_MAX constants and the equality tests the
  C code applies to their results.  Control flow of the parser never depends on
  anything else about floating point.
* The compile-time macro FLAG_PUSH_DASH_DASH_BACK is a boolean parameter
  `pushBack` of the parser.
* In-place mutation of the argument vector performed by the `=` split is
  modelled by returning the final contents of the whole argument vector
  (`argvFinal` of `Outcome`).  The `rest` arguments are modelled as the actual
  list of leftover argument strings.
* `flag__get_ref` resolves to the flag's internal value slot for flags
  registered through the non-`_var` functions, which is the fragment embedded
  here; the external-binding `_var` variants are not needed by any claim.
-/

namespace FlagH

/-- C strings modelled as lists of characters. -/
abbrev CStr := List Char

def ULLONG_MAX : Nat := 2 ^ 64 - 1

/-- Modulus of `unsigned long long` arithmetic. -/
def U64MOD : Nat := 2 ^ 64

/-- `isspace` in the default C locale, as skipped by `strtoull`. -/
def flag_isspace (c : Char) : Bool :=
  c = ' ' || c = '\t' || c = '\n' || c = '\x0b' || c = '\x0c' || c = '\r'

/-- Decimal digit accumulation loop of `strtoull` (base 10). -/
def strtoullDigits : CStr → Nat → Nat × CStr
  | c :: cs, acc =>
    if c.isDigit then strtoullDigits cs (acc * 10 + (c.toNat - 48)) else (acc, c :: cs)
  | [], acc => (acc, [])

/-- `strtoull(s, &endptr, 10)`: returns the converted value, the tail of the
string that `endptr` points at, and whether ERANGE was raised.  Skips leading
white space, accepts an optional sign, saturates at ULLONG_MAX with ERANGE on
overflow, and for a leading minus sign returns the negation of the magnitude
modulo 2^64.  When no digits are found it returns 0 with `endptr` at the
original start of the string. -/
def flag_strtoull (s : CStr) : Nat × CStr × Bool :=
  let t := s.dropWhile flag_isspace
  let signed : Bool × CStr :=
    match t with
    | '-' :: cs => (true, cs)
    | '+' :: cs => (false, cs)
    | cs => (false, cs)
  match signed.2 with
  | c :: _ =>
    if c.isDigit then
      let vr := strtoullDigits signed.2 0
      if ULLONG_MAX < vr.1 then (ULLONG_MAX, vr.2, true)
      else ((if signed.1 then (U64MOD - vr.1) % U64MOD else vr.1), vr.2, false)
    else (0, s, false)
  | [] => (0, s, false)

/-- `flag__size_calculate_multiplier` from flag.h v1.7.0: multiplies `result`
by the multiplier denoted by the suffix `endptr`, in `unsigned long long`
arithmetic (hence modulo 2^64), returning `none` exactly when the suffix is
not recognized (the C function returns false). -/
def flag__size_calculate_multiplier (endptr : CStr) (result : Nat) : Option Nat :=
  if endptr = ['c'] then some (result * 1 % U64MOD)
  else if endptr = ['w'] then some (result * 2 % U64MOD)
  else if endptr = ['b'] then some (result * 512 % U64MOD)
  else if endptr = ['k', 'B'] then some (result * 1000 % U64MOD)
  else if endptr = ['K'] ∨ endptr = ['K', 'i', 'B'] then some (result * 1024 % U64MOD)
  else if endptr = ['M', 'B'] then some (result * 1000 ^ 2 % U64MOD)
  else if endptr = ['M'] ∨ endptr = ['M', 'i', 'B'] ∨ endptr = ['x', 'M'] then
    some (result * 1024 ^ 2 % U64MOD)
  else if endptr = ['G', 'B'] then some (result * 1000 ^ 3 % U64MOD)
  else if endptr = ['G'] ∨ endptr = ['G', 'i', 'B'] then some (result * 1024 ^ 3 % U64MOD)
  else if endptr = ['T', 'B'] then some (result * 1000 ^ 4 % U64MOD)
  else if endptr = ['T'] ∨ endptr = ['T', 'i', 'B'] then some (result * 1024 ^ 4 % U64MOD)
  else if endptr = ['P', 'B'] then some (result * 1000 ^ 5 % U64MOD)
  else if endptr = ['P'] ∨ endptr = ['P', 'i', 'B'] then some (result * 1024 ^ 5 % U64MOD)
  else if endptr = ['E', 'B'] then some (result * 1000 ^ 6 % U64MOD)
  else if endptr = ['E'] ∨ endptr = ['E', 'i', 'B'] then some (result * 1024 ^ 6 % U64MOD)
  else if endptr = ['Z', 'B'] then some (result * 1000 ^ 7 % U64MOD)
  else if endptr = ['Z'] ∨ endptr = ['Z', 'i', 'B'] then some (result * 1024 ^ 7 % U64MOD)
  else if endptr = ['Y', 'B'] then some (result * 1000 ^ 8 % U64MOD)
  else if endptr = ['Y'] ∨ endptr = ['Y', 'i', 'B'] then some (result * 1024 ^ 8 % U64MOD)
  else if endptr = [] then some result
  else none

/-- `Flag_Type` of flag.h v1.7.0. -/
inductive Flag_Type
  | FLAG_BOOL
  | FLAG_UINT64
  | FLAG_DOUBLE
  | FLAG_FLOAT
  | FLAG_SIZE
  | FLAG_STR
  | FLAG_LIST
  | FLAG_LIST_MUT
deriving DecidableEq, Repr

/-- `Flag_Error` of flag.h v1.7.0. -/
inductive Flag_Error
  | FLAG_NO_ERROR
  | FLAG_ERROR_UNKNOWN
  | FLAG_ERROR_NO_VALUE
  | FLAG_ERROR_INVALID_NUMBER
  | FLAG_ERROR_INTEGER_OVERFLOW
  | FLAG_ERROR_FLOAT_OVERFLOW
  | FLAG_ERROR_DOUBLE_OVERFLOW
  | FLAG_ERROR_INVALID_SIZE_SUFFIX
deriving DecidableEq, Repr

/-- The platform floating-point interface used by the parser: the two
conversions, the overflow sentinels and the equality the C code applies. -/
structure Platform (F D : Type) where
  strtof : CStr → F × CStr × Bool
  strtod : CStr → D × CStr × Bool
  FLT_MAX : F
  DBL_MAX : D
  feq : F → F → Bool
  deq : D → D → Bool

/-- `Flag_Value` union, modelled as a record of all members: each C access
reads or writes exactly one member and the parser never reads a member it did
not write for the same flag (the `type` tag fixes the member), so the record
model coincides with the union on every execution the claims range over.
`as_str` is an `Option` because the C member is a possibly-NULL pointer. -/
structure Flag_Value (F D : Type) where
  as_str : Option CStr
  as_uint64 : Nat
  as_double : D
  as_float : F
  as_bool : Bool
  as_size : Nat
  as_list : List CStr
  as_list_mut : List CStr
deriving DecidableEq

/-- One registered flag (the `Flag` struct, without the external `ref`
binding, see the file header). -/
structure Flag (F D : Type) where
  type : Flag_Type
  name : CStr
  desc : CStr
  val : Flag_Value F D
  defv : Flag_Value F D
deriving DecidableEq

/-- `Flag_Context`: `flags` is the used prefix of the flags array,
`rest` stands for the `rest_argc`/`rest_argv` pair (the actual leftover
argument strings), `flag_error_name` and `flag_error_value` are
possibly-NULL C strings. -/
structure Flag_Context (F D : Type) where
  flags : List (Flag F D)
  flag_error : Flag_Error
  flag_error_name : Option CStr
  flag_error_value : Option CStr
  program_name : Option CStr
  rest : List CStr
deriving DecidableEq

/-- Information carried out of a failing flag dispatch: the error kind, the
value the C code additionally records in `flag_error_value` (if any), the
state of errno at the failure point, and the arguments not yet consumed. -/
structure FailInfo where
  err : Flag_Error
  errValue : Option CStr
  errno : Bool
  argsLeft : List CStr
deriving DecidableEq

/-- Fetching the value of a value-carrying flag occurrence: the inline
`=`-value if present (consuming nothing), otherwise the next argument.
`none` means the `argc == 0` missing-value branch was hit. -/
def getArg (equals : Option CStr) (args : List CStr) : Option (CStr × List CStr) :=
  match equals with
  | some v => some (v, args)
  | none =>
    match args with
    | [] => none
    | a :: rest => some (a, rest)

/-- The body of one `switch (fc->flags[i].type)` dispatch of `flag_c_parse`
(v1.7.0) for a single matching flag: parses and validates the occurrence and,
unless `ignore` is set, stores the result into the flag's value slot. -/
def flagParseOne {F D : Type} (P : Platform F D) (ignore : Bool) (equals : Option CStr)
    (fl : Flag F D) (args : List CStr) (errno : Bool) :
    Except FailInfo (Flag F D × List CStr × Bool) :=
  match fl.type with
  | .FLAG_LIST =>
    match getArg equals args with
    | none => .error ⟨.FLAG_ERROR_NO_VALUE, none, errno, args⟩
    | some (arg, args') =>
      .ok (if ignore then fl
           else { fl with val := { fl.val with as_list := fl.val.as_list ++ [arg] } },
           args', errno)
  | .FLAG_LIST_MUT =>
    match getArg equals args with
    | none => .error ⟨.FLAG_ERROR_NO_VALUE, none, errno, args⟩
    | some (arg, args') =>
      .ok (if ignore then fl
           else { fl with val := { fl.val with as_list_mut := fl.val.as_list_mut ++ [arg] } },
           args', errno)
  | .FLAG_BOOL =>
    .ok (if ignore then fl else { fl with val := { fl.val with as_bool := true } }, args, errno)
  | .FLAG_STR =>
    match getArg equals args with
    | none => .error ⟨.FLAG_ERROR_NO_VALUE, none, errno, args⟩
    | some (arg, args') =>
      .ok (if ignore then fl else { fl with val := { fl.val with as_str := some arg } },
           args', errno)
  | .FLAG_UINT64 =>
    match getArg equals args with
    | none => .error ⟨.FLAG_ERROR_NO_VALUE, none, errno, args⟩
    | some (arg, args') =>
      let r := flag_strtoull arg
      let errno' := errno || r.2.2
      if r.2.1 ≠ [] then .error ⟨.FLAG_ERROR_INVALID_NUMBER, none, errno', args'⟩
      else if r.1 = ULLONG_MAX ∧ errno' = true then
        .error ⟨.FLAG_ERROR_INTEGER_OVERFLOW, none, errno', args'⟩
      else
        .ok (if ignore then fl else { fl with val := { fl.val with as_uint64 := r.1 } },
             args', errno')
  | .FLAG_FLOAT =>
    match getArg equals args with
    | none => .error ⟨.FLAG_ERROR_NO_VALUE, none, errno, args⟩
    | some (arg, args') =>
      let r := P.strtof arg
      let errno' := errno || r.2.2
      if r.2.1 ≠ [] then .error ⟨.FLAG_ERROR_INVALID_NUMBER, none, errno', args'⟩
      else if P.feq r.1 P.FLT_MAX = true ∧ errno' = true then
        .error ⟨.FLAG_ERROR_FLOAT_OVERFLOW, none, errno', args'⟩
      else
        .ok (if ignore then fl else { fl with val := { fl.val with as_float := r.1 } },
             args', errno')
  | .FLAG_DOUBLE =>
    match getArg equals args with
    | none => .error ⟨.FLAG_ERROR_NO_VALUE, none, errno, args⟩
    | some (arg, args') =>
      let r := P.strtod arg
      let errno' := errno || r.2.2
      if r.2.1 ≠ [] then .error ⟨.FLAG_ERROR_INVALID_NUMBER, none, errno', args'⟩
      else if P.deq r.1 P.DBL_MAX = true ∧ errno' = true then
        .error ⟨.FLAG_ERROR_DOUBLE_OVERFLOW, none, errno', args'⟩
      else
        .ok (if ignore then fl else { fl with val := { fl.val with as_double := r.1 } },
             args', errno')
  | .FLAG_SIZE =>
    match getArg equals args with
    | none => .error ⟨.FLAG_ERROR_NO_VALUE, none, errno, args⟩
    | some (arg, args') =>
      let r := flag_strtoull arg
      let errno' := errno || r.2.2
      match flag__size_calculate_multiplier r.2.1 r.1 with
      | none => .error ⟨.FLAG_ERROR_INVALID_SIZE_SUFFIX, some r.2.1, errno', args'⟩
      | some v =>
        if v = ULLONG_MAX ∧ errno' = true then
          .error ⟨.FLAG_ERROR_INTEGER_OVERFLOW, none, errno', args'⟩
        else
          .ok (if ignore then fl else { fl with val := { fl.val with as_size := v } },
               args', errno')

/-- The `for (size_t i = 0; i < fc->flags_count; ++i)` lookup loop of
`flag_c_parse`: every flag whose name matches is dispatched in registration
order (the loop has no `break`), threading the remaining arguments, errno and
the `found` accumulator through; returns the updated flags array together
with either the failure information or the final loop state. -/
def flagDispatch {F D : Type} (P : Platform F D) (ignore : Bool) (equals : Option CStr)
    (name : CStr) :
    List (Flag F D) → List CStr → Bool → Bool →
    List (Flag F D) × Except FailInfo (List CStr × Bool × Bool)
  | [], args, errno, found => ([], .ok (args, errno, found))
  | fl :: fls, args, errno, found =>
    if fl.name = name then
      match flagParseOne P ignore equals fl args errno with
      | .error e => (fl :: fls, .error e)
      | .ok (fl', args', errno') =>
        let r := flagDispatch P ignore equals name fls args' errno' true
        (fl' :: r.1, r.2)
    else
      let r := flagDispatch P ignore equals name fls args errno found
      (fl :: r.1, r.2)

/-- Result of a parse: the returned boolean, the final context, the final
contents of the whole original argument vector (witnessing the in-place `=`
split mutation), and the final errno. -/
structure Outcome (F D : Type) where
  ok : Bool
  fc : Flag_Context F D
  argvFinal : List CStr
  errno : Bool
deriving DecidableEq

/-- First char is a dash, i.e. the C test `*flag == '-'` (an empty string has
`*flag == 0`, hence no dash). -/
def headIsDash : CStr → Bool
  | c :: _ => c = '-'
  | [] => false

/-- `strchr(flag, '=')` split: name part and, when `=` occurs, the value
part after the first `=`. -/
def splitAtEq (s : CStr) : CStr × Option CStr :=
  match s.dropWhile (fun c => c ≠ '=') with
  | [] => (s, none)
  | _ :: v => (s.takeWhile (fun c => c ≠ '='), some v)

theorem getArg_length_le (equals : Option CStr) (args : List CStr)
    (a : CStr) (bs : List CStr) (hg : getArg equals args = some (a, bs)) :
    bs.length ≤ args.length := by
  unfold getArg at hg
  cases equals with
  | some v =>
    simp only [Option.some.injEq, Prod.mk.injEq] at hg
    rw [← hg.2]
  | none =>
    cases args with
    | nil => simp at hg
    | cons x xs =>
      simp only [Option.some.injEq, Prod.mk.injEq] at hg
      rw [← hg.2]
      simp

theorem flagParseOne_args_le {F D : Type} (P : Platform F D) (ignore : Bool)
    (equals : Option CStr) (fl : Flag F D) (args : List CStr) (errno : Bool)
    (fl' : Flag F D) (args' : List CStr) (errno' : Bool)
    (h : flagParseOne P ignore equals fl args errno = .ok (fl', args', errno')) :
    args'.length ≤ args.length := by
  unfold flagParseOne at h
  cases htype : fl.type <;> rw [htype] at h <;> dsimp only at h
  case FLAG_BOOL =>
    cases h
    exact Nat.le_refl _
  case FLAG_LIST =>
    cases hg : getArg equals args with
    | none => rw [hg] at h; cases h
    | some p =>
      obtain ⟨a, bs⟩ := p
      rw [hg] at h; dsimp only at h
      have hb := getArg_length_le equals args a bs hg
      cases h
      exact hb
  case FLAG_LIST_MUT =>
    cases hg : getArg equals args with
    | none => rw [hg] at h; cases h
    | some p =>
      obtain ⟨a, bs⟩ := p
      rw [hg] at h; dsimp only at h
      have hb := getArg_length_le equals args a bs hg
      cases h
      exact hb
  case FLAG_STR =>
    cases hg : getArg equals args with
    | none => rw [hg] at h; cases h
    | some p =>
      obtain ⟨a, bs⟩ := p
      rw [hg] at h; dsimp only at h
      have hb := getArg_length_le equals args a bs hg
      cases h
      exact hb
  case FLAG_UINT64 =>
    cases hg : getArg equals args with
    | none => rw [hg] at h; cases h
    | some p =>
      obtain ⟨a, bs⟩ := p
      rw [hg] at h; dsimp only at h
      split at h
      · cases h
      · split at h
        · cases h
        · have hb := getArg_length_le equals args a bs hg
          cases h
          exact hb
  case FLAG_FLOAT =>
    cases hg : getArg equals args with
    | none => rw [hg] at h; cases h
    | some p =>
      obtain ⟨a, bs⟩ := p
      rw [hg] at h; dsimp only at h
      split at h
      · cases h
      · split at h
        · cases h
        · have hb := getArg_length_le equals args a bs hg
          cases h
          exact hb
  case FLAG_DOUBLE =>
    cases hg : getArg equals args with
    | none => rw [hg] at h; cases h
    | some p =>
      obtain ⟨a, bs⟩ := p
      rw [hg] at h; dsimp only at h
      split at h
      · cases h
      · split at h
        · cases h
        · have hb := getArg_length_le equals args a bs hg
          cases h
          exact hb
  case FLAG_SIZE =>
    cases hg : getArg equals args with
    | none => rw [hg] at h; cases h
    | some p =>
      obtain ⟨a, bs⟩ := p
      rw [hg] at h; dsimp only at h
      cases hm : flag__size_calculate_multiplier (flag_strtoull a).2.1 (flag_strtoull a).1 with
      | none => rw [hm] at h; cases h
      | some v =>
        rw [hm] at h; dsimp only at h
        split at h
        · cases h
        · have hb := getArg_length_le equals args a bs hg
          cases h
          exact hb


theorem flagDispatch_ok_args_le {F D : Type} (P : Platform F D) (ignore : Bool)
    (equals : Option CStr) (name : CStr) :
    ∀ (fls : List (Flag F D)) (args : List CStr) (errno found : Bool)
      (args' : List CStr) (errno' found' : Bool),
      (flagDispatch P ignore equals name fls args errno found).2 = .ok (args', errno', found') →
      args'.length ≤ args.length := by
  intro fls
  induction fls with
  | nil =>
    intro args errno found args' errno' found' h
    simp only [flagDispatch, Except.ok.injEq, Prod.mk.injEq] at h
    rw [← h.1]
  | cons fl fls ih =>
    intro args errno found args' errno' found' h
    by_cases hn : fl.name = name
    · cases hp : flagParseOne P ignore equals fl args errno with
      | error e =>
        simp only [flagDispatch, hn, if_true, hp] at h
        cases h
      | ok t =>
        obtain ⟨fl', args1, errno1⟩ := t
        simp only [flagDispatch, hn, if_true, hp] at h
        have h1 := flagParseOne_args_le P ignore equals fl args errno fl' args1 errno1 hp
        have h2 := ih args1 errno1 true args' errno' found' h
        omega
    · simp only [flagDispatch, hn, if_false] at h
      exact ih args errno found args' errno' found' h

/-- The scanning loop of `flag_c_parse` (v1.7.0): `processed` holds the
already-shifted prefix of the argument vector (in reverse, with the `=` split
mutation applied), `args` the not-yet-shifted tail, `errno` the current errno
state.  Mirrors, in order: the non-flag stop (push-back), the `--` terminator
(with the FLAG_PUSH_DASH_DASH_BACK policy `pushBack`), dash and ignore-marker
stripping, the `=` split (including its in-place mutation of the argument),
the lookup/dispatch loop, the unknown-flag failure and the loop exit.
The `fuel` argument only makes the recursion structural: every iteration
consumes at least one argument, so any `fuel ≥ args.length` never reaches
the exhaustion case (`flag_c_parse` below passes `args.length`). -/
def parseLoop {F D : Type} (P : Platform F D) (pushBack : Bool) :
    Nat → Flag_Context F D → List CStr → List CStr → Bool → Outcome F D
  | _, fc, processed, [], errno => ⟨true, { fc with rest := [] }, processed.reverse, errno⟩
  | 0, fc, processed, tok :: args, errno =>
    -- unreachable for fuel ≥ args.length
    ⟨true, fc, processed.reverse ++ tok :: args, errno⟩
  | fuel + 1, fc, processed, tok :: args, errno =>
    if headIsDash tok = false then
      ⟨true, { fc with rest := tok :: args }, processed.reverse ++ tok :: args, errno⟩
    else if tok = ['-', '-'] then
      ⟨true, { fc with rest := if pushBack then tok :: args else args },
       processed.reverse ++ tok :: args, errno⟩
    else
      let body := tok.drop 1
      let im : Bool × CStr :=
        if body.head? = some '/' then (true, body.drop 1) else (false, body)
      let nv := splitAtEq im.2
      let tokM := tok.takeWhile (fun c => c ≠ '=')
      let d := flagDispatch P im.1 nv.2 nv.1 fc.flags args errno false
      match d.2 with
      | .error e =>
        ⟨false,
         { fc with flags := d.1, flag_error := e.err,
                   flag_error_name := some nv.1,
                   flag_error_value := e.errValue <|> fc.flag_error_value },
         processed.reverse ++ tokM :: args, e.errno⟩
      | .ok (args', errno', found) =>
        if found then
          -- the value arguments consumed by the dispatch stay in the argument
          -- vector unmutated: they are the prefix of `args` dropped in `args'`
          parseLoop P pushBack fuel { fc with flags := d.1 }
            ((args.take (args.length - args'.length)).reverse ++ tokM :: processed) args' errno'
        else
          ⟨false,
           { fc with flags := d.1, flag_error := .FLAG_ERROR_UNKNOWN,
                     flag_error_name := some nv.1, flag_error_value := some nv.1 },
           processed.reverse ++ tokM :: args, errno'⟩

def flag_c_parse {F D : Type} (P : Platform F D) (pushBack : Bool)
    (fc : Flag_Context F D) (argv : List CStr) (errno : Bool) : Option (Outcome F D) :=
  match fc.program_name with
  | some _ => some (parseLoop P pushBack argv.length fc [] argv errno)
  | none =>
    match argv with
    | [] => none
    | pn :: args =>
      some (parseLoop P pushBack args.length { fc with program_name := some pn } [pn] args errno)


/-! ### Concrete instantiation used for closed test evaluations -/

/-- A degenerate platform used by closed theorems about contexts that contain
no float or double flags (the parser then never calls the conversions). -/
def unitPlatform : Platform Unit Unit where
  strtof := fun _ => ((), [], false)
  strtod := fun _ => ((), [], false)
  FLT_MAX := ()
  DBL_MAX := ()
  feq := fun _ _ => true
  deq := fun _ _ => true

/-- All-zero `Flag_Value` (the `memset(flag, 0, sizeof(*flag))` state of
`flag__new_flag`), at the degenerate platform types. -/
def zeroValU : Flag_Value Unit Unit := ⟨none, 0, (), (), false, 0, [], []⟩

/-- A fresh context with the given flags and a preset program name, as built
by `flag_c_new("p")` followed by registrations. -/
def ctxU (flags : List (Flag Unit Unit)) : Flag_Context Unit Unit :=
  { flags := flags, flag_error := .FLAG_NO_ERROR, flag_error_name := none,
    flag_error_value := none, program_name := some ['p'], rest := [] }

/-- The flag produced by `flag_c_size(c, name, dflt, "")`. -/
def sizeFlagU (name : CStr) (dflt : Nat) : Flag Unit Unit :=
  { type := .FLAG_SIZE, name := name, desc := [],
    val := { zeroValU with as_size := dflt }, defv := { zeroValU with as_size := dflt } }

/-- The flag produced by `flag_c_uint64(c, name, dflt, "")`. -/
def uint64FlagU (name : CStr) (dflt : Nat) : Flag Unit Unit :=
  { type := .FLAG_UINT64, name := name, desc := [],
    val := { zeroValU with as_uint64 := dflt }, defv := { zeroValU with as_uint64 := dflt } }

/-- The flag produced by `flag_c_str(c, name, dflt, "")`. -/
def strFlagU (name : CStr) (dflt : Option CStr) : Flag Unit Unit :=
  { type := .FLAG_STR, name := name, desc := [],
    val := { zeroValU with as_str := dflt }, defv := { zeroValU with as_str := dflt } }

/-! ### C4: size suffix parsing -/

/-- C4: size value parsing multiplies the parsed base-10 numeral by the
suffix multiplier: `-s 10K` stores 10*1024, `-s 10kB` stores 10*1000,
`-s 10` (empty suffix) stores 10, and `-s 10Q` makes `flag_c_parse` fail
with the invalid-size-suffix error naming flag `s`. -/
theorem claim_C4 :
    ((flag_c_parse unitPlatform false (ctxU [sizeFlagU ['s'] 0])
        [['-', 's'], ['1', '0', 'K']] false).map
      (fun o => (o.ok, o.fc.flags.map fun f => f.val.as_size)) = some (true, [10 * 1024]))
  ∧ ((flag_c_parse unitPlatform false (ctxU [sizeFlagU ['s'] 0])
        [['-', 's'], ['1', '0', 'k', 'B']] false).map
      (fun o => (o.ok, o.fc.flags.map fun f => f.val.as_size)) = some (true, [10 * 1000]))
  ∧ ((flag_c_parse unitPlatform false (ctxU [sizeFlagU ['s'] 0])
        [['-', 's'], ['1', '0']] false).map
      (fun o => (o.ok, o.fc.flags.map fun f => f.val.as_size)) = some (true, [10]))
  ∧ ((flag_c_parse unitPlatform false (ctxU [sizeFlagU ['s'] 0])
        [['-', 's'], ['1', '0', 'Q']] false).map
      (fun o => (o.ok, o.fc.flag_error)) = some (false, .FLAG_ERROR_INVALID_SIZE_SUFFIX))
  ∧ ((flag_c_parse unitPlatform false (ctxU [sizeFlagU ['s'] 0])
        [['-', 's'], ['1', '0', 'Q']] false).map
      (fun o => o.fc.flag_error_name) = some (some ['s'])) :=
  ⟨by decide, by decide, by decide, by decide, by decide⟩

/-! ### C2: when the missing-value error is reported -/

/-- C2 counterexample: for a string flag `s`, the vector `-s -x` does NOT
produce the missing-value failure the claim requires when the next argument
is another dash-prefixed token; `flag_c_parse` succeeds and stores `-x` as
the value of `s`. -/
theorem claim_C2_counterexample :
    (flag_c_parse unitPlatform false (ctxU [strFlagU ['s'] none])
        [['-', 's'], ['-', 'x']] false).map
      (fun o => (o.ok, o.fc.flag_error, o.fc.flags.map fun f => f.val.as_str)) =
    some (true, .FLAG_NO_ERROR, [some ['-', 'x']]) := by decide

/-! ### Small reduction lemmas about the scanner -/

theorem splitAtEq_of_not_mem (s : CStr) (h : '=' ∉ s) : splitAtEq s = (s, none) := by
  unfold splitAtEq
  have hd : s.dropWhile (fun c => c ≠ '=') = [] := by
    rw [List.dropWhile_eq_nil_iff]
    intro x hx
    simp only [ne_eq, decide_not, Bool.not_eq_true', decide_eq_false_iff_not]
    exact fun hc => h (hc ▸ hx)
  rw [hd]

theorem takeWhile_of_not_mem (s : CStr) (h : '=' ∉ s) :
    s.takeWhile (fun c => c ≠ '=') = s := by
  rw [List.takeWhile_eq_self_iff]
  intro x hx
  simp only [ne_eq, decide_not, Bool.not_eq_true', decide_eq_false_iff_not]
  exact fun hc => h (hc ▸ hx)

theorem flagParseOne_no_value {F D : Type} (P : Platform F D) (ign : Bool) (fl : Flag F D)
    (errno : Bool) (hk : fl.type ≠ .FLAG_BOOL) :
    flagParseOne P ign none fl [] errno = .error ⟨.FLAG_ERROR_NO_VALUE, none, errno, []⟩ := by
  unfold flagParseOne
  cases ht : fl.type
  case FLAG_BOOL => exact absurd ht hk
  all_goals rfl

theorem flagParseOne_error_ne_no_value {F D : Type} (P : Platform F D) (ign : Bool)
    (equals : Option CStr) (fl : Flag F D) (args : List CStr) (errno : Bool)
    (a : CStr) (bs : List CStr) (hg : getArg equals args = some (a, bs)) (e : FailInfo)
    (h : flagParseOne P ign equals fl args errno = .error e) :
    e.err ≠ .FLAG_ERROR_NO_VALUE := by
  unfold flagParseOne at h
  cases ht : fl.type <;> rw [ht] at h <;> dsimp only at h
  case FLAG_BOOL => cases h
  case FLAG_LIST => rw [hg] at h; dsimp only at h; cases h
  case FLAG_LIST_MUT => rw [hg] at h; dsimp only at h; cases h
  case FLAG_STR => rw [hg] at h; dsimp only at h; cases h
  case FLAG_UINT64 =>
    rw [hg] at h; dsimp only at h
    split at h
    · cases h; simp
    · split at h
      · cases h; simp
      · cases h
  case FLAG_FLOAT =>
    rw [hg] at h; dsimp only at h
    split at h
    · cases h; simp
    · split at h
      · cases h; simp
      · cases h
  case FLAG_DOUBLE =>
    rw [hg] at h; dsimp only at h
    split at h
    · cases h; simp
    · split at h
      · cases h; simp
      · cases h
  case FLAG_SIZE =>
    rw [hg] at h; dsimp only at h
    cases hm : flag__size_calculate_multiplier (flag_strtoull a).2.1 (flag_strtoull a).1 with
    | none => rw [hm] at h; dsimp only at h; cases h; simp
    | some v =>
      rw [hm] at h; dsimp only at h
      split at h
      · cases h; simp
      · cases h

theorem flagDispatch_singleton {F D : Type} (P : Platform F D) (ign : Bool)
    (equals : Option CStr) (name : CStr) (fl : Flag F D) (args : List CStr)
    (errno found : Bool) (hn : fl.name = name) :
    flagDispatch P ign equals name [fl] args errno found =
      match flagParseOne P ign equals fl args errno with
      | .error e => ([fl], .error e)
      | .ok (fl', args', errno') => ([fl'], .ok (args', errno', true)) := by
  cases hp : flagParseOne P ign equals fl args errno with
  | error e => simp [flagDispatch, hn, hp]
  | ok t =>
    obtain ⟨fl', args', errno'⟩ := t
    simp [flagDispatch, hn, hp]

/-- One iteration of the scanning loop on a plain (undecorated) flag token
`-name`, reduced to the dispatch outcome. -/
theorem parseLoop_flag_step {F D : Type} (P : Platform F D) (pb : Bool) (fuel : Nat)
    (fc : Flag_Context F D) (processed : List CStr) (name : CStr) (args : List CStr)
    (errno : Bool) (hslash : name.head? ≠ some '/') (hdash : name ≠ ['-'])
    (heqn : '=' ∉ name) :
    parseLoop P pb (fuel + 1) fc processed (('-' :: name) :: args) errno =
      (let d := flagDispatch P false none name fc.flags args errno false
       match d.2 with
       | .error e =>
         ⟨false,
          { fc with flags := d.1, flag_error := e.err, flag_error_name := some name,
                    flag_error_value := e.errValue <|> fc.flag_error_value },
          processed.reverse ++ ('-' :: name) :: args, e.errno⟩
       | .ok (args', errno', found) =>
         if found then
           parseLoop P pb fuel { fc with flags := d.1 }
             ((args.take (args.length - args'.length)).reverse ++ ('-' :: name) :: processed)
             args' errno'
         else
           ⟨false,
            { fc with flags := d.1, flag_error := .FLAG_ERROR_UNKNOWN,
                      flag_error_name := some name, flag_error_value := some name },
            processed.reverse ++ ('-' :: name) :: args, errno'⟩) := by
  have hd2 : ¬(('-' :: name) = ['-', '-']) := by
    intro hcon
    injection hcon with h1 h2
    exact hdash h2
  have htm : ('-' :: name).takeWhile (fun c => c ≠ '=') = '-' :: name := by
    rw [takeWhile_of_not_mem ('-' :: name) (by
      intro hmem
      rcases List.mem_cons.1 hmem with h1 | h2
      · cases h1
      · exact heqn h2)]
  simp only [parseLoop, headIsDash, List.drop_succ_cons, List.drop_zero, decide_eq_true_eq,
    splitAtEq_of_not_mem name heqn, htm, hd2, if_false, hslash, ite_false]
  simp [hslash]

theorem flagParseOne_ok_getArg {F D : Type} (P : Platform F D) (ign : Bool)
    (equals : Option CStr) (fl : Flag F D) (args : List CStr) (errno : Bool)
    (fl' : Flag F D) (args' : List CStr) (errno' : Bool) (hk : fl.type ≠ .FLAG_BOOL)
    (h : flagParseOne P ign equals fl args errno = .ok (fl', args', errno')) :
    ∃ a, getArg equals args = some (a, args') := by
  unfold flagParseOne at h
  cases ht : fl.type <;> rw [ht] at h <;> dsimp only at h
  case FLAG_BOOL => exact absurd ht hk
  case FLAG_LIST =>
    cases hg : getArg equals args with
    | none => rw [hg] at h; cases h
    | some p =>
      obtain ⟨a, bs⟩ := p
      rw [hg] at h; dsimp only at h
      cases h
      exact ⟨a, by simp [hg]⟩
  case FLAG_LIST_MUT =>
    cases hg : getArg equals args with
    | none => rw [hg] at h; cases h
    | some p =>
      obtain ⟨a, bs⟩ := p
      rw [hg] at h; dsimp only at h
      cases h
      exact ⟨a, by simp [hg]⟩
  case FLAG_STR =>
    cases hg : getArg equals args with
    | none => rw [hg] at h; cases h
    | some p =>
      obtain ⟨a, bs⟩ := p
      rw [hg] at h; dsimp only at h
      cases h
      exact ⟨a, by simp [hg]⟩
  case FLAG_UINT64 =>
    cases hg : getArg equals args with
    | none => rw [hg] at h; cases h
    | some p =>
      obtain ⟨a, bs⟩ := p
      rw [hg] at h; dsimp only at h
      split at h
      · cases h
      · split at h
        · cases h
        · cases h; exact ⟨a, by simp [hg]⟩
  case FLAG_FLOAT =>
    cases hg : getArg equals args with
    | none => rw [hg] at h; cases h
    | some p =>
      obtain ⟨a, bs⟩ := p
      rw [hg] at h; dsimp only at h
      split at h
      · cases h
      · split at h
        · cases h
        · cases h; exact ⟨a, by simp [hg]⟩
  case FLAG_DOUBLE =>
    cases hg : getArg equals args with
    | none => rw [hg] at h; cases h
    | some p =>
      obtain ⟨a, bs⟩ := p
      rw [hg] at h; dsimp only at h
      split at h
      · cases h
      · split at h
        · cases h
        · cases h; exact ⟨a, by simp [hg]⟩
  case FLAG_SIZE =>
    cases hg : getArg equals args with
    | none => rw [hg] at h; cases h
    | some p =>
      obtain ⟨a, bs⟩ := p
      rw [hg] at h; dsimp only at h
      cases hm : flag__size_calculate_multiplier (flag_strtoull a).2.1 (flag_strtoull a).1 with
      | none => rw [hm] at h; cases h
      | some v =>
        rw [hm] at h; dsimp only at h
        split at h
        · cases h
        · cases h; exact ⟨a, by simp [hg]⟩

/-! ### C2 (amended): the missing-value error -/

/-- C2 (amended): for a registered value-bearing flag (every kind except
Bool), a plain `-name` occurrence without an inline `=` value makes
`flag_c_parse` report the missing-value error exactly when the argument
vector is exhausted at that point; when any next argument exists — even a
dash-prefixed one — it is consumed as the value and the missing-value error
cannot arise from this vector. -/
theorem claim_C2 {F D : Type} (P : Platform F D) (pb : Bool) (fl : Flag F D)
    (pn name : CStr) (errno : Bool)
    (hkind : fl.type ≠ .FLAG_BOOL) (hname : fl.name = name)
    (hslash : name.head? ≠ some '/') (hdash : name ≠ ['-']) (heqn : '=' ∉ name) :
    (flag_c_parse P pb ⟨[fl], .FLAG_NO_ERROR, none, none, some pn, []⟩
        [('-' :: name)] errno =
      some ⟨false,
            ⟨[fl], .FLAG_ERROR_NO_VALUE, some name, none, some pn, []⟩,
            [('-' :: name)], errno⟩)
  ∧ (∀ t o, flag_c_parse P pb ⟨[fl], .FLAG_NO_ERROR, none, none, some pn, []⟩
        [('-' :: name), t] errno = some o →
       o.fc.flag_error ≠ .FLAG_ERROR_NO_VALUE) := by
  have hstep1 := parseLoop_flag_step P pb 0
    (⟨[fl], .FLAG_NO_ERROR, none, none, some pn, []⟩ : Flag_Context F D) [] name [] errno
    hslash hdash heqn
  constructor
  · show some (parseLoop P pb (0 + 1)
      (⟨[fl], .FLAG_NO_ERROR, none, none, some pn, []⟩ : Flag_Context F D)
      [] [('-' :: name)] errno) = _
    rw [hstep1]
    simp only [flagDispatch_singleton P false none name fl [] errno false hname,
      flagParseOne_no_value P false fl errno hkind]
    simp
  · intro t o ho
    have hstep2 := parseLoop_flag_step P pb 1
      (⟨[fl], .FLAG_NO_ERROR, none, none, some pn, []⟩ : Flag_Context F D) [] name [t] errno
      hslash hdash heqn
    rw [show flag_c_parse P pb ⟨[fl], .FLAG_NO_ERROR, none, none, some pn, []⟩
          [('-' :: name), t] errno =
        some (parseLoop P pb (1 + 1)
          (⟨[fl], .FLAG_NO_ERROR, none, none, some pn, []⟩ : Flag_Context F D)
          [] [('-' :: name), t] errno) from rfl, hstep2] at ho
    rw [flagDispatch_singleton P false none name fl [t] errno false hname] at ho
    cases hp : flagParseOne P false none fl [t] errno with
    | error e =>
      have hne := flagParseOne_error_ne_no_value P false none fl [t] errno t [] rfl e hp
      rw [hp] at ho
      dsimp only at ho
      cases ho
      exact hne
    | ok t3 =>
      obtain ⟨fl', args', errno'⟩ := t3
      obtain ⟨a, hga⟩ := flagParseOne_ok_getArg P false none fl [t] errno fl' args' errno' hkind hp
      have hae : args' = [] := by
        have : getArg none [t] = some (t, ([] : List CStr)) := rfl
        rw [this] at hga
        injection hga with h1
        exact (Prod.mk.injEq _ _ _ _ ▸ h1).2.symm
      subst hae
      rw [hp] at ho
      dsimp only at ho
      rw [if_pos rfl] at ho
      cases ho
      simp [parseLoop]

/-- Witness for C2, at a string flag `s`: the vector `-s` alone produces the
missing-value failure, while `-s v` consumes `v` and leaves no error. -/
theorem claim_C2_witness :
    (flag_c_parse unitPlatform false
        ⟨[strFlagU ['s'] none], .FLAG_NO_ERROR, none, none, some ['p'], []⟩
        [['-', 's']] false =
      some ⟨false, ⟨[strFlagU ['s'] none], .FLAG_ERROR_NO_VALUE, some ['s'], none,
                    some ['p'], []⟩, [['-', 's']], false⟩)
  ∧ (⟨true, ⟨[{ strFlagU ['s'] none with val := { zeroValU with as_str := some ['v'] } }],
              .FLAG_NO_ERROR, none, none, some ['p'], []⟩,
       [['-', 's'], ['v']], false⟩ : Outcome Unit Unit).fc.flag_error ≠
      .FLAG_ERROR_NO_VALUE :=
  ⟨(claim_C2 unitPlatform false (strFlagU ['s'] none) ['p'] ['s'] false (by decide) rfl
      (by decide) (by decide) (by decide)).1,
   (claim_C2 unitPlatform false (strFlagU ['s'] none) ['p'] ['s'] false (by decide) rfl
      (by decide) (by decide) (by decide)).2 ['v'] _ (by decide)⟩

/-! ### C3: stop at the first non-flag token -/

/-- C3: whenever the scanner shifts a token that does not begin with a dash,
parsing stops at once with success, the flags and error state are untouched,
and the rest arguments are exactly that token followed by all remaining
arguments, in order; correspondingly for `flag_c_parse` when the very first
token after the program name is a non-flag. -/
theorem claim_C3 {F D : Type} (P : Platform F D) (pb : Bool) :
    (∀ fuel fc processed tok args errno, headIsDash tok = false →
       parseLoop P pb (fuel + 1) fc processed (tok :: args) errno =
         ⟨true, { fc with rest := tok :: args }, processed.reverse ++ tok :: args, errno⟩)
  ∧ (∀ fc pn tok args errno, fc.program_name = some pn → headIsDash tok = false →
       flag_c_parse P pb fc (tok :: args) errno =
         some ⟨true, { fc with rest := tok :: args }, tok :: args, errno⟩) := by
  have hstep : ∀ fuel fc processed tok args errno, headIsDash tok = false →
      parseLoop P pb (fuel + 1) fc processed (tok :: args) errno =
        ⟨true, { fc with rest := tok :: args }, processed.reverse ++ tok :: args, errno⟩ := by
    intro fuel fc processed tok args errno h
    simp [parseLoop, h]
  refine ⟨hstep, ?_⟩
  intro fc pn tok args errno hpn h
  simp only [flag_c_parse, hpn]
  rw [show (tok :: args).length = args.length + 1 from rfl, hstep _ _ _ _ _ _ h]
  simp [hpn]

/-- Witness for C3 at the token `x`. -/
theorem claim_C3_witness :
    (parseLoop unitPlatform false (0 + 1) (ctxU []) [] [['x']] false =
      ⟨true, { ctxU [] with rest := [['x']] }, [].reverse ++ [['x']], false⟩)
  ∧ (flag_c_parse unitPlatform false (ctxU []) [['x'], ['y']] false =
      some ⟨true, { ctxU [] with rest := [['x'], ['y']] }, [['x'], ['y']], false⟩) :=
  ⟨(claim_C3 unitPlatform false).1 0 (ctxU []) [] ['x'] [] false (by decide),
   (claim_C3 unitPlatform false).2 (ctxU []) ['p'] ['x'] [['y']] false rfl (by decide)⟩

/-! ### C6: the dash-dash terminator -/

/-- C6: shifting the exact token `--` stops scanning with success; under the
default policy the rest arguments start right after `--`, and under the
FLAG_PUSH_DASH_DASH_BACK policy `--` itself is the first rest argument;
correspondingly for `flag_c_parse` when `--` is the first token after the
program name. -/
theorem claim_C6 {F D : Type} (P : Platform F D) :
    (∀ pb fuel fc processed args errno,
       parseLoop P pb (fuel + 1) fc processed (['-', '-'] :: args) errno =
         ⟨true, { fc with rest := if pb then ['-', '-'] :: args else args },
          processed.reverse ++ ['-', '-'] :: args, errno⟩)
  ∧ (∀ pb fc pn args errno, fc.program_name = some pn →
       flag_c_parse P pb fc (['-', '-'] :: args) errno =
         some ⟨true, { fc with rest := if pb then ['-', '-'] :: args else args },
               ['-', '-'] :: args, errno⟩) := by
  have hstep : ∀ pb fuel fc processed args errno,
      parseLoop P pb (fuel + 1) fc processed (['-', '-'] :: args) errno =
        ⟨true, { fc with rest := if pb then ['-', '-'] :: args else args },
         processed.reverse ++ ['-', '-'] :: args, errno⟩ := by
    intro pb fuel fc processed args errno
    simp [parseLoop, headIsDash]
  refine ⟨hstep, ?_⟩
  intro pb fc pn args errno hpn
  simp only [flag_c_parse, hpn]
  rw [show (['-', '-'] :: args).length = args.length + 1 from rfl, hstep]
  simp [hpn]

/-- Witness for C6 under both policies. -/
theorem claim_C6_witness :
    (flag_c_parse unitPlatform false (ctxU []) [['-', '-'], ['x']] false =
      some ⟨true, { ctxU [] with rest := if false then [['-', '-'], ['x']] else [['x']] },
            [['-', '-'], ['x']], false⟩)
  ∧ (flag_c_parse unitPlatform true (ctxU []) [['-', '-'], ['x']] false =
      some ⟨true, { ctxU [] with rest := if true then [['-', '-'], ['x']] else [['x']] },
            [['-', '-'], ['x']], false⟩) :=
  ⟨(claim_C6 unitPlatform).2 false (ctxU []) ['p'] [['x']] false rfl,
   (claim_C6 unitPlatform).2 true (ctxU []) ['p'] [['x']] false rfl⟩

/-! ### C9: in-place mutation of the argument vector by the `=` split -/

theorem parseLoop_argvFinal {F D : Type} (P : Platform F D) (pb : Bool) :
    ∀ (fuel : Nat) (fc : Flag_Context F D) (processed args : List CStr) (errno : Bool),
      ∃ t, (parseLoop P pb fuel fc processed args errno).argvFinal = processed.reverse ++ t := by
  intro fuel
  induction fuel with
  | zero =>
    intro fc processed args errno
    cases args with
    | nil => exact ⟨[], by simp [parseLoop]⟩
    | cons tok args => exact ⟨tok :: args, by simp [parseLoop]⟩
  | succ fuel ih =>
    intro fc processed args errno
    cases args with
    | nil => exact ⟨[], by simp [parseLoop]⟩
    | cons tok args =>
      by_cases h1 : headIsDash tok = false
      · exact ⟨tok :: args, by simp [parseLoop, h1]⟩
      · by_cases h2 : tok = ['-', '-']
        · exact ⟨tok :: args, by simp [parseLoop, h1, h2, headIsDash]⟩
        · simp only [parseLoop, if_neg h1, if_neg h2]
          cases hd2 : (flagDispatch P
              (if (List.drop 1 tok).head? = some '/' then ((true : Bool), List.drop 1 (List.drop 1 tok))
               else ((false : Bool), List.drop 1 tok)).1
              (splitAtEq (if (List.drop 1 tok).head? = some '/' then ((true : Bool), List.drop 1 (List.drop 1 tok))
               else ((false : Bool), List.drop 1 tok)).2).2
              (splitAtEq (if (List.drop 1 tok).head? = some '/' then ((true : Bool), List.drop 1 (List.drop 1 tok))
               else ((false : Bool), List.drop 1 tok)).2).1
              fc.flags args errno false).2 with
          | error e =>
            exact ⟨tok.takeWhile (fun c => c ≠ '=') :: args, by simp⟩
          | ok t =>
            obtain ⟨args1, errno1, found1⟩ := t
            dsimp only
            by_cases hf : found1 = true
            · rw [if_pos hf]
              obtain ⟨t', ht'⟩ := ih _ _ _ _
              refine ⟨tok.takeWhile (fun c => c ≠ '=') ::
                (args.take (args.length - args1.length) ++ t'), ?_⟩
              rw [ht']
              simp
            · rw [if_neg hf]
              exact ⟨tok.takeWhile (fun c => c ≠ '=') :: args, by simp⟩

/-- C9: when a shifted flag token contains `=` (the `-name=value` syntax),
the parse overwrites the first `=` in that argv element with a terminator
before lookup: in the final contents of the argument vector the element
reads as its prefix before the `=` — a genuine modification of the caller's
vector — and this holds on success and failure paths alike. -/
theorem claim_C9 {F D : Type} (P : Platform F D) (pb : Bool) (fuel : Nat)
    (fc : Flag_Context F D) (processed : List CStr) (tok : CStr) (args : List CStr)
    (errno : Bool) (hdash : headIsDash tok = true) (hdd : tok ≠ ['-', '-'])
    (hmem : '=' ∈ tok) :
    tok.takeWhile (fun c => c ≠ '=') ≠ tok ∧
    ∃ t, (parseLoop P pb (fuel + 1) fc processed (tok :: args) errno).argvFinal =
      processed.reverse ++ (tok.takeWhile (fun c => c ≠ '=')) :: t := by
  constructor
  · intro hcon
    rw [List.takeWhile_eq_self_iff] at hcon
    have h2 := hcon '=' hmem
    simp at h2
  · simp only [parseLoop]
    rw [if_neg (by simp [hdash]), if_neg hdd]
    cases hd2 : (flagDispatch P
        (if (List.drop 1 tok).head? = some '/' then ((true : Bool), List.drop 1 (List.drop 1 tok))
         else ((false : Bool), List.drop 1 tok)).1
        (splitAtEq (if (List.drop 1 tok).head? = some '/' then ((true : Bool), List.drop 1 (List.drop 1 tok))
         else ((false : Bool), List.drop 1 tok)).2).2
        (splitAtEq (if (List.drop 1 tok).head? = some '/' then ((true : Bool), List.drop 1 (List.drop 1 tok))
         else ((false : Bool), List.drop 1 tok)).2).1
        fc.flags args errno false).2 with
    | error e =>
      exact ⟨args, by simp⟩
    | ok t =>
      obtain ⟨args1, errno1, found1⟩ := t
      dsimp only
      by_cases hf : found1 = true
      · rw [if_pos hf]
        obtain ⟨t', ht'⟩ := parseLoop_argvFinal P pb fuel _ _ _ _
        refine ⟨args.take (args.length - args1.length) ++ t', ?_⟩
        rw [ht']
        simp
      · rw [if_neg hf]
        exact ⟨args, by simp⟩

/-- Witness for C9 at the token `-s=v` against a string flag `s`. -/
theorem claim_C9_witness :
    (['-', 's', '=', 'v'].takeWhile (fun c => c ≠ '=') ≠ ['-', 's', '=', 'v']) ∧
    ∃ t, (parseLoop unitPlatform false (0 + 1) (ctxU [strFlagU ['s'] none]) []
            [['-', 's', '=', 'v']] false).argvFinal =
      [].reverse ++ (['-', 's', '=', 'v'].takeWhile (fun c => c ≠ '=')) :: t :=
  claim_C9 unitPlatform false 0 (ctxU [strFlagU ['s'] none]) [] ['-', 's', '=', 'v'] []
    false (by decide) (by decide) (by decide)

/-! ### C5: the slash ignore marker -/

/-- An ignored dispatch of one flag behaves exactly like the plain one —
same failure, same argument consumption, same errno — except that the flag
itself is returned unmodified. -/
theorem flagParseOne_ignore {F D : Type} (P : Platform F D) (equals : Option CStr)
    (fl : Flag F D) (args : List CStr) (errno : Bool) :
    flagParseOne P true equals fl args errno =
      Except.map (fun t => (fl, t.2)) (flagParseOne P false equals fl args errno) := by
  unfold flagParseOne
  cases ht : fl.type <;> dsimp only
  case FLAG_BOOL => rfl
  case FLAG_LIST =>
    cases hg : getArg equals args with
    | none => rfl
    | some p => obtain ⟨a, bs⟩ := p; rfl
  case FLAG_LIST_MUT =>
    cases hg : getArg equals args with
    | none => rfl
    | some p => obtain ⟨a, bs⟩ := p; rfl
  case FLAG_STR =>
    cases hg : getArg equals args with
    | none => rfl
    | some p => obtain ⟨a, bs⟩ := p; rfl
  case FLAG_UINT64 =>
    cases hg : getArg equals args with
    | none => rfl
    | some p =>
      obtain ⟨a, bs⟩ := p
      dsimp only
      split
      · rfl
      · split
        · rfl
        · rfl
  case FLAG_FLOAT =>
    cases hg : getArg equals args with
    | none => rfl
    | some p =>
      obtain ⟨a, bs⟩ := p
      dsimp only
      split
      · rfl
      · split
        · rfl
        · rfl
  case FLAG_DOUBLE =>
    cases hg : getArg equals args with
    | none => rfl
    | some p =>
      obtain ⟨a, bs⟩ := p
      dsimp only
      split
      · rfl
      · split
        · rfl
        · rfl
  case FLAG_SIZE =>
    cases hg : getArg equals args with
    | none => rfl
    | some p =>
      obtain ⟨a, bs⟩ := p
      dsimp only
      cases hm : flag__size_calculate_multiplier (flag_strtoull a).2.1 (flag_strtoull a).1 with
      | none => rfl
      | some v =>
        dsimp only
        split
        · rfl
        · rfl

/-- The ignored lookup loop leaves the flags array untouched and otherwise
produces exactly the outcome (failure or consumption state) of the plain
lookup loop. -/
theorem flagDispatch_ignore {F D : Type} (P : Platform F D) (equals : Option CStr)
    (name : CStr) :
    ∀ (fls : List (Flag F D)) (args : List CStr) (errno found : Bool),
      (flagDispatch P true equals name fls args errno found).1 = fls ∧
      (flagDispatch P true equals name fls args errno found).2 =
        (flagDispatch P false equals name fls args errno found).2 := by
  intro fls
  induction fls with
  | nil => intro args errno found; exact ⟨rfl, rfl⟩
  | cons fl fls ih =>
    intro args errno found
    by_cases hn : fl.name = name
    · cases hp : flagParseOne P false equals fl args errno with
      | error e =>
        have hpt : flagParseOne P true equals fl args errno = .error e := by
          rw [flagParseOne_ignore, hp]; rfl
        constructor
        · simp [flagDispatch, hn, hpt]
        · simp [flagDispatch, hn, hp, hpt]
      | ok t =>
        obtain ⟨fl', args1, errno1⟩ := t
        have hpt : flagParseOne P true equals fl args errno = .ok (fl, args1, errno1) := by
          rw [flagParseOne_ignore, hp]; rfl
        have ihh := ih args1 errno1 true
        constructor
        · simp [flagDispatch, hn, hpt, ihh.1]
        · simp [flagDispatch, hn, hp, hpt, ihh.2]
    · have ihh := ih args errno found
      constructor
      · simp [flagDispatch, hn, ihh.1]
      · simp [flagDispatch, hn, ihh.2]

theorem flagParseOne_ok_sfx {F D : Type} (P : Platform F D) (ign : Bool)
    (equals : Option CStr) (fl : Flag F D) (args : List CStr) (errno : Bool)
    (fl' : Flag F D) (args' : List CStr) (errno' : Bool)
    (h : flagParseOne P ign equals fl args errno = .ok (fl', args', errno')) :
    ∃ pre, args = pre ++ args' := by
  by_cases hb : fl.type = .FLAG_BOOL
  · unfold flagParseOne at h
    rw [hb] at h
    cases h
    exact ⟨[], rfl⟩
  · obtain ⟨a, hg⟩ := flagParseOne_ok_getArg P ign equals fl args errno fl' args' errno' hb h
    unfold getArg at hg
    cases equals with
    | some v =>
      simp only [Option.some.injEq, Prod.mk.injEq] at hg
      exact ⟨[], by rw [hg.2]; simp⟩
    | none =>
      cases args with
      | nil => simp at hg
      | cons x xs =>
        simp only [Option.some.injEq, Prod.mk.injEq] at hg
        exact ⟨[x], by rw [hg.2]; rfl⟩

theorem flagDispatch_ok_sfx {F D : Type} (P : Platform F D) (ign : Bool)
    (equals : Option CStr) (name : CStr) :
    ∀ (fls : List (Flag F D)) (args : List CStr) (errno found : Bool)
      (args' : List CStr) (errno' found' : Bool),
      (flagDispatch P ign equals name fls args errno found).2 = .ok (args', errno', found') →
      ∃ pre, args = pre ++ args' := by
  intro fls
  induction fls with
  | nil =>
    intro args errno found args' errno' found' h
    simp only [flagDispatch, Except.ok.injEq, Prod.mk.injEq] at h
    exact ⟨[], by rw [h.1]; simp⟩
  | cons fl fls ih =>
    intro args errno found args' errno' found' h
    by_cases hn : fl.name = name
    · cases hp : flagParseOne P ign equals fl args errno with
      | error e =>
        simp only [flagDispatch, hn, if_true, hp] at h
        cases h
      | ok t =>
        obtain ⟨fl', args1, errno1⟩ := t
        simp only [flagDispatch, hn, if_true, hp] at h
        obtain ⟨pre1, hp1⟩ := flagParseOne_ok_sfx P ign equals fl args errno fl' args1 errno1 hp
        obtain ⟨pre2, hp2⟩ := ih args1 errno1 true args' errno' found' h
        exact ⟨pre1 ++ pre2, by rw [hp1, hp2, List.append_assoc]⟩
    · simp only [flagDispatch, hn, if_false] at h
      exact ih args errno found args' errno' found' h

/-- The one-step equation of the scanning loop on a dash token that is not
the terminator, with the body written out. -/
theorem parseLoop_cons_eq {F D : Type} (P : Platform F D) (pb : Bool) (fuel : Nat)
    (fc : Flag_Context F D) (processed : List CStr) (tok : CStr) (args : List CStr)
    (errno : Bool) (h1 : headIsDash tok = true) (h2 : tok ≠ ['-', '-']) :
    parseLoop P pb (fuel + 1) fc processed (tok :: args) errno =
      (let im : Bool × CStr :=
        if (tok.drop 1).head? = some '/' then (true, (tok.drop 1).drop 1)
        else (false, tok.drop 1)
       let nv := splitAtEq im.2
       let tokM := tok.takeWhile (fun c => c ≠ '=')
       let d := flagDispatch P im.1 nv.2 nv.1 fc.flags args errno false
       match d.2 with
       | .error e =>
         ⟨false,
          { fc with flags := d.1, flag_error := e.err, flag_error_name := some nv.1,
                    flag_error_value := e.errValue <|> fc.flag_error_value },
          processed.reverse ++ tokM :: args, e.errno⟩
       | .ok (args', errno', found) =>
         if found then
           parseLoop P pb fuel { fc with flags := d.1 }
             ((args.take (args.length - args'.length)).reverse ++ tokM :: processed)
             args' errno'
         else
           ⟨false,
            { fc with flags := d.1, flag_error := .FLAG_ERROR_UNKNOWN,
                      flag_error_name := some nv.1, flag_error_value := some nv.1 },
            processed.reverse ++ tokM :: args, errno'⟩) := by
  simp only [parseLoop]
  rw [if_neg (by simp [h1]), if_neg h2]

/-- C5: for any context, flag name and non-flag value, the slash-ignored
occurrence (dash, slash, name, then the value) is tokenized, dispatched and
validated exactly as `-name value`: the parse returns the same boolean and error
kind and flag name, leaves the same rest arguments and errno — but the
flags' value storage after the ignored occurrence is exactly the original
one (scalar slots keep their values, lists receive no new element). -/
theorem claim_C5 {F D : Type} (P : Platform F D) (pb : Bool) (fc : Flag_Context F D)
    (pn name value : CStr) (errno : Bool) (hpn : fc.program_name = some pn)
    (hslash : name.head? ≠ some '/') (hdash2 : name ≠ ['-'])
    (hvdash : headIsDash value = false) :
    ∃ o1 o2,
      flag_c_parse P pb fc [('-' :: '/' :: name), value] errno = some o1 ∧
      flag_c_parse P pb fc [('-' :: name), value] errno = some o2 ∧
      o1.ok = o2.ok ∧ o1.fc.flag_error = o2.fc.flag_error ∧
      o1.fc.flag_error_name = o2.fc.flag_error_name ∧
      o1.fc.rest = o2.fc.rest ∧ o1.errno = o2.errno ∧
      o1.fc.flags = fc.flags := by
  have hh1 : headIsDash ('-' :: '/' :: name) = true := by simp [headIsDash]
  have hh2 : ('-' :: '/' :: name) ≠ ['-', '-'] := by simp
  have hg1 : headIsDash ('-' :: name) = true := by simp [headIsDash]
  have hg2 : ('-' :: name) ≠ ['-', '-'] := by
    intro hcon
    injection hcon with ha hb
    exact hdash2 hb
  have hparse1 : flag_c_parse P pb fc [('-' :: '/' :: name), value] errno =
      some (parseLoop P pb (1 + 1) fc [] [('-' :: '/' :: name), value] errno) := by
    simp only [flag_c_parse, hpn]
    rfl
  have hparse2 : flag_c_parse P pb fc [('-' :: name), value] errno =
      some (parseLoop P pb (1 + 1) fc [] [('-' :: name), value] errno) := by
    simp only [flag_c_parse, hpn]
    rfl
  have hL1 := parseLoop_cons_eq P pb 1 fc [] ('-' :: '/' :: name) [value] errno hh1 hh2
  have hL2 := parseLoop_cons_eq P pb 1 fc [] ('-' :: name) [value] errno hg1 hg2
  simp only [List.drop_succ_cons, List.drop_zero, List.head?_cons, Option.some.injEq,
    ite_true, ite_false, if_pos rfl] at hL1
  simp only [List.drop_succ_cons, List.drop_zero, if_neg hslash] at hL2
  rcases hsp : splitAtEq name with ⟨n2, eqv⟩
  rw [hsp] at hL1 hL2
  dsimp only at hL1 hL2
  have hig := flagDispatch_ignore P eqv n2 fc.flags [value] errno false
  rw [hig.1, hig.2] at hL1
  refine ⟨parseLoop P pb (1 + 1) fc [] [('-' :: '/' :: name), value] errno,
          parseLoop P pb (1 + 1) fc [] [('-' :: name), value] errno,
          hparse1, hparse2, ?_⟩
  rw [hL1, hL2]
  cases hd : (flagDispatch P false eqv n2 fc.flags [value] errno false).2 with
  | error e => exact ⟨rfl, rfl, rfl, rfl, rfl, rfl⟩
  | ok t =>
    obtain ⟨args1, errno1, found1⟩ := t
    dsimp only
    by_cases hf : found1 = true
    · rw [if_pos hf, if_pos hf]
      obtain ⟨pre, hpre⟩ :=
        flagDispatch_ok_sfx P false eqv n2 fc.flags [value] errno false args1 errno1 found1 hd
      cases pre with
      | nil =>
        rw [show args1 = [value] from hpre.symm]
        rw [show (1 : Nat) = 0 + 1 from rfl]
        simp [parseLoop, hvdash]
      | cons p ps =>
        have hps : ps ++ args1 = [] := by
          injection hpre with hpv hrest
          exact hrest.symm
        have hargs1 : args1 = [] := (List.append_eq_nil.1 hps).2
        rw [hargs1]
        simp [parseLoop]
    · rw [if_neg hf, if_neg hf]
      exact ⟨rfl, rfl, rfl, rfl, rfl, rfl⟩

/-- Witness for C5: the ignored occurrence of `n` with value 7 against a uint64 flag `n`. -/
theorem claim_C5_witness :
    ∃ o1 o2,
      flag_c_parse unitPlatform false (ctxU [uint64FlagU ['n'] 5]) [['-', '/', 'n'], ['7']]
        false = some o1 ∧
      flag_c_parse unitPlatform false (ctxU [uint64FlagU ['n'] 5]) [['-', 'n'], ['7']]
        false = some o2 ∧
      o1.ok = o2.ok ∧ o1.fc.flag_error = o2.fc.flag_error ∧
      o1.fc.flag_error_name = o2.fc.flag_error_name ∧
      o1.fc.rest = o2.fc.rest ∧ o1.errno = o2.errno ∧
      o1.fc.flags = (ctxU [uint64FlagU ['n'] 5]).flags :=
  claim_C5 unitPlatform false (ctxU [uint64FlagU ['n'] 5]) ['p'] ['n'] ['7'] false rfl
    (by decide) (by decide) (by decide)

/-! ### C10: duplicate registration dispatches to every matching flag -/

/-- C10: when two flags are registered under the same name (here two string
flags), a single occurrence of that flag is dispatched to both in
registration order — the lookup loop does not stop at the first match — and,
with no inline value, each matching flag consumes its own argument from the
vector: `-name v1 v2` stores `v1` into the first and `v2` into the second. -/
theorem claim_C10 {F D : Type} (P : Platform F D) (pb : Bool)
    (fl1 fl2 : Flag F D) (pn name v1 v2 : CStr) (errno : Bool)
    (h1t : fl1.type = .FLAG_STR) (h2t : fl2.type = .FLAG_STR)
    (h1n : fl1.name = name) (h2n : fl2.name = name)
    (hslash : name.head? ≠ some '/') (hdash : name ≠ ['-']) (heqn : '=' ∉ name) :
    flag_c_parse P pb ⟨[fl1, fl2], .FLAG_NO_ERROR, none, none, some pn, []⟩
        [('-' :: name), v1, v2] errno =
      some ⟨true,
            ⟨[{ fl1 with val := { fl1.val with as_str := some v1 } },
              { fl2 with val := { fl2.val with as_str := some v2 } }],
             .FLAG_NO_ERROR, none, none, some pn, []⟩,
            [('-' :: name), v1, v2], errno⟩ := by
  have hp1 : flagParseOne P false none fl1 [v1, v2] errno =
      .ok ({ fl1 with val := { fl1.val with as_str := some v1 } }, [v2], errno) := by
    unfold flagParseOne
    rw [h1t]
    rfl
  have hp2 : flagParseOne P false none fl2 [v2] errno =
      .ok ({ fl2 with val := { fl2.val with as_str := some v2 } }, [], errno) := by
    unfold flagParseOne
    rw [h2t]
    rfl
  have hd : flagDispatch P false none name [fl1, fl2] [v1, v2] errno false =
      ([{ fl1 with val := { fl1.val with as_str := some v1 } },
        { fl2 with val := { fl2.val with as_str := some v2 } }], .ok ([], errno, true)) := by
    simp [flagDispatch, h1n, h2n, hp1, hp2]
  have hstep := parseLoop_flag_step P pb 2
    (⟨[fl1, fl2], .FLAG_NO_ERROR, none, none, some pn, []⟩ : Flag_Context F D)
    [] name [v1, v2] errno hslash hdash heqn
  show some (parseLoop P pb (2 + 1)
      (⟨[fl1, fl2], .FLAG_NO_ERROR, none, none, some pn, []⟩ : Flag_Context F D)
      [] [('-' :: name), v1, v2] errno) = _
  rw [hstep]
  rw [show flagDispatch P false none name
        ((⟨[fl1, fl2], .FLAG_NO_ERROR, none, none, some pn, []⟩ : Flag_Context F D)).flags
        [v1, v2] errno false =
      ([{ fl1 with val := { fl1.val with as_str := some v1 } },
        { fl2 with val := { fl2.val with as_str := some v2 } }], .ok ([], errno, true)) from hd]
  simp [parseLoop]

/-- Witness for C10: two string flags named `s`, vector `-s a b`. -/
theorem claim_C10_witness :
    flag_c_parse unitPlatform false
        ⟨[strFlagU ['s'] none, strFlagU ['s'] none], .FLAG_NO_ERROR, none, none,
         some ['p'], []⟩
        [['-', 's'], ['a'], ['b']] false =
      some ⟨true,
            ⟨[{ strFlagU ['s'] none with val := { (strFlagU ['s'] none).val with as_str := some ['a'] } },
              { strFlagU ['s'] none with val := { (strFlagU ['s'] none).val with as_str := some ['b'] } }],
             .FLAG_NO_ERROR, none, none, some ['p'], []⟩,
            [['-', 's'], ['a'], ['b']], false⟩ :=
  claim_C10 unitPlatform false (strFlagU ['s'] none) (strFlagU ['s'] none) ['p'] ['s']
    ['a'] ['b'] false rfl rfl rfl rfl (by decide) (by decide) (by decide)

/-! ### C7: failures are returned as values, without rollback -/

theorem flagParseOne_error_ne_no_error {F D : Type} (P : Platform F D) (ign : Bool)
    (equals : Option CStr) (fl : Flag F D) (args : List CStr) (errno : Bool) (e : FailInfo)
    (h : flagParseOne P ign equals fl args errno = .error e) :
    e.err ≠ .FLAG_NO_ERROR := by
  unfold flagParseOne at h
  cases ht : fl.type <;> rw [ht] at h <;> dsimp only at h
  case FLAG_BOOL => cases h
  case FLAG_LIST =>
    cases hg : getArg equals args with
    | none => rw [hg] at h; dsimp only at h; cases h; simp
    | some p => obtain ⟨a, bs⟩ := p; rw [hg] at h; dsimp only at h; cases h
  case FLAG_LIST_MUT =>
    cases hg : getArg equals args with
    | none => rw [hg] at h; dsimp only at h; cases h; simp
    | some p => obtain ⟨a, bs⟩ := p; rw [hg] at h; dsimp only at h; cases h
  case FLAG_STR =>
    cases hg : getArg equals args with
    | none => rw [hg] at h; dsimp only at h; cases h; simp
    | some p => obtain ⟨a, bs⟩ := p; rw [hg] at h; dsimp only at h; cases h
  case FLAG_UINT64 =>
    cases hg : getArg equals args with
    | none => rw [hg] at h; dsimp only at h; cases h; simp
    | some p =>
      obtain ⟨a, bs⟩ := p
      rw [hg] at h; dsimp only at h
      split at h
      · cases h; simp
      · split at h
        · cases h; simp
        · cases h
  case FLAG_FLOAT =>
    cases hg : getArg equals args with
    | none => rw [hg] at h; dsimp only at h; cases h; simp
    | some p =>
      obtain ⟨a, bs⟩ := p
      rw [hg] at h; dsimp only at h
      split at h
      · cases h; simp
      · split at h
        · cases h; simp
        · cases h
  case FLAG_DOUBLE =>
    cases hg : getArg equals args with
    | none => rw [hg] at h; dsimp only at h; cases h; simp
    | some p =>
      obtain ⟨a, bs⟩ := p
      rw [hg] at h; dsimp only at h
      split at h
      · cases h; simp
      · split at h
        · cases h; simp
        · cases h
  case FLAG_SIZE =>
    cases hg : getArg equals args with
    | none => rw [hg] at h; dsimp only at h; cases h; simp
    | some p =>
      obtain ⟨a, bs⟩ := p
      rw [hg] at h; dsimp only at h
      cases hm : flag__size_calculate_multiplier (flag_strtoull a).2.1 (flag_strtoull a).1 with
      | none => rw [hm] at h; dsimp only at h; cases h; simp
      | some v =>
        rw [hm] at h; dsimp only at h
        split at h
        · cases h; simp
        · cases h

theorem flagDispatch_error_ne_no_error {F D : Type} (P : Platform F D) (ign : Bool)
    (equals : Option CStr) (name : CStr) :
    ∀ (fls : List (Flag F D)) (args : List CStr) (errno found : Bool) (e : FailInfo),
      (flagDispatch P ign equals name fls args errno found).2 = .error e →
      e.err ≠ .FLAG_NO_ERROR := by
  intro fls
  induction fls with
  | nil => intro args errno found e h; simp [flagDispatch] at h
  | cons fl fls ih =>
    intro args errno found e h
    by_cases hn : fl.name = name
    · cases hp : flagParseOne P ign equals fl args errno with
      | error e2 =>
        have hne := flagParseOne_error_ne_no_error P ign equals fl args errno e2 hp
        simp only [flagDispatch, hn, if_true, hp] at h
        cases h
        exact hne
      | ok t =>
        obtain ⟨fl', args1, errno1⟩ := t
        simp only [flagDispatch, hn, if_true, hp] at h
        exact ih args1 errno1 true e h
    · simp only [flagDispatch, hn, if_false] at h
      exact ih args errno found e h

/-- C7: every parse failure is returned as a value — the outcome records a
non-trivial error kind and an offending flag name — and scanning aborts at
the failure leaving earlier matches already stored: in particular, with a
uint64 flag `a` and no flag `nope`, the vector `-a 42 -nope` fails with the
unknown-flag error naming `nope` while `a` keeps its freshly stored 42 (no
rollback). -/
theorem claim_C7 {F D : Type} (P : Platform F D) (pb : Bool) :
    (∀ fuel fc processed args errno,
       (parseLoop P pb fuel fc processed args errno).ok = false →
       (parseLoop P pb fuel fc processed args errno).fc.flag_error ≠ .FLAG_NO_ERROR ∧
       (parseLoop P pb fuel fc processed args errno).fc.flag_error_name ≠ none)
  ∧ (flag_c_parse unitPlatform false
        ⟨[uint64FlagU ['a'] 0], .FLAG_NO_ERROR, none, none, some ['p'], []⟩
        [['-', 'a'], ['4', '2'], ['-', 'n', 'o', 'p', 'e']] false =
      some ⟨false,
            ⟨[{ uint64FlagU ['a'] 0 with val := { zeroValU with as_uint64 := 42 } }],
             .FLAG_ERROR_UNKNOWN, some ['n', 'o', 'p', 'e'], some ['n', 'o', 'p', 'e'],
             some ['p'], []⟩,
            [['-', 'a'], ['4', '2'], ['-', 'n', 'o', 'p', 'e']], false⟩) := by
  constructor
  · intro fuel
    induction fuel with
    | zero =>
      intro fc processed args errno h
      cases args with
      | nil => simp [parseLoop] at h
      | cons tok args => simp [parseLoop] at h
    | succ fuel ih =>
      intro fc processed args errno h
      cases args with
      | nil => simp [parseLoop] at h
      | cons tok args =>
        by_cases h1 : headIsDash tok = false
        · simp [parseLoop, h1] at h
        · by_cases h2 : tok = ['-', '-']
          · simp [parseLoop, h1, h2, headIsDash] at h
          · simp only [parseLoop, if_neg h1, if_neg h2] at h ⊢
            cases hd2 : (flagDispatch P
                (if (List.drop 1 tok).head? = some '/' then ((true : Bool), List.drop 1 (List.drop 1 tok))
                 else ((false : Bool), List.drop 1 tok)).1
                (splitAtEq (if (List.drop 1 tok).head? = some '/' then ((true : Bool), List.drop 1 (List.drop 1 tok))
                 else ((false : Bool), List.drop 1 tok)).2).2
                (splitAtEq (if (List.drop 1 tok).head? = some '/' then ((true : Bool), List.drop 1 (List.drop 1 tok))
                 else ((false : Bool), List.drop 1 tok)).2).1
                fc.flags args errno false).2 with
            | error e =>
              dsimp only at h ⊢
              refine ⟨?_, by simp⟩
              have := flagDispatch_error_ne_no_error P _ _ _ fc.flags args errno false e hd2
              simpa using this
            | ok t =>
              obtain ⟨args1, errno1, found1⟩ := t
              rw [hd2] at h
              dsimp only at h ⊢
              by_cases hf : found1 = true
              · rw [if_pos hf] at h ⊢
                exact ih _ _ _ _ h
              · rw [if_neg hf] at h ⊢
                exact ⟨by simp, by simp⟩
  · decide

/-- Witness for C7 at the failing vector `-z` against an empty registry. -/
theorem claim_C7_witness :
    (parseLoop unitPlatform false 1 (ctxU []) [] [['-', 'z']] false).fc.flag_error ≠
        .FLAG_NO_ERROR ∧
    (parseLoop unitPlatform false 1 (ctxU []) [] [['-', 'z']] false).fc.flag_error_name ≠
        none :=
  (claim_C7 unitPlatform false).1 1 (ctxU []) [] [['-', 'z']] false (by decide)

/-! ### C1: well-formed vectors parse successfully, scalars last-write-win,
lists accumulate -/

/-- One well-formed flag occurrence: a plain boolean switch `-name`, an
inline `-name=value`, or a separate-argument `-name value`. -/
inductive Occ
  | obool (name : CStr)
  | oinline (name : CStr) (value : CStr)
  | osep (name : CStr) (value : CStr)

def Occ.name : Occ → CStr
  | .obool n => n
  | .oinline n _ => n
  | .osep n _ => n

def Occ.value? : Occ → Option CStr
  | .obool _ => none
  | .oinline _ v => some v
  | .osep _ v => some v

/-- The argv tokens of an occurrence. -/
def renderOcc : Occ → List CStr
  | .obool n => [('-' :: n)]
  | .oinline n v => [('-' :: n) ++ '=' :: v]
  | .osep n v => [('-' :: n), v]

/-- The argv tokens of a sequence of occurrences. -/
def renderOccs (occs : List Occ) : List CStr := (occs.map renderOcc).flatten

/-- The tokens of an occurrence as they end up in the argument vector after
the parse (the `=` split truncates the inline form), in reverse order. -/
def mutOcc : Occ → List CStr
  | .obool n => [('-' :: n)]
  | .oinline n _ => [('-' :: n)]
  | .osep n v => [v, ('-' :: n)]

/-- A flag name the scanner passes through verbatim: no ignore marker, not
the terminator remnant, no `=`. -/
def goodName (n : CStr) : Prop :=
  n.head? ≠ some '/' ∧ n ≠ ['-'] ∧ '=' ∉ n

/-- The conversion of a value succeeds cleanly for the given flag kind
(no trailing characters, no range error). -/
def convOk {F D : Type} (P : Platform F D) (t : Flag_Type) (v : CStr) : Prop :=
  match t with
  | .FLAG_BOOL => False
  | .FLAG_STR => True
  | .FLAG_LIST => True
  | .FLAG_LIST_MUT => True
  | .FLAG_UINT64 => (flag_strtoull v).2.1 = [] ∧ (flag_strtoull v).2.2 = false
  | .FLAG_SIZE => (flag_strtoull v).2.2 = false ∧
      (flag__size_calculate_multiplier (flag_strtoull v).2.1 (flag_strtoull v).1).isSome = true
  | .FLAG_FLOAT => (P.strtof v).2.1 = [] ∧ (P.strtof v).2.2 = false
  | .FLAG_DOUBLE => (P.strtod v).2.1 = [] ∧ (P.strtod v).2.2 = false

/-- The value stored into a flag by a successful occurrence with raw value
`v` (for a boolean flag `v` is irrelevant; the occurrence sets true). -/
def storeVal {F D : Type} (P : Platform F D) (fl : Flag F D) (v : CStr) : Flag F D :=
  match fl.type with
  | .FLAG_BOOL => { fl with val := { fl.val with as_bool := true } }
  | .FLAG_STR => { fl with val := { fl.val with as_str := some v } }
  | .FLAG_LIST => { fl with val := { fl.val with as_list := fl.val.as_list ++ [v] } }
  | .FLAG_LIST_MUT => { fl with val := { fl.val with as_list_mut := fl.val.as_list_mut ++ [v] } }
  | .FLAG_UINT64 => { fl with val := { fl.val with as_uint64 := (flag_strtoull v).1 } }
  | .FLAG_SIZE => { fl with val := { fl.val with as_size :=
      (flag__size_calculate_multiplier (flag_strtoull v).2.1 (flag_strtoull v).1).getD 0 } }
  | .FLAG_FLOAT => { fl with val := { fl.val with as_float := (P.strtof v).1 } }
  | .FLAG_DOUBLE => { fl with val := { fl.val with as_double := (P.strtod v).1 } }

/-- The effect of one occurrence on one flag. -/
def applyOne {F D : Type} (P : Platform F D) (o : Occ) (fl : Flag F D) : Flag F D :=
  if fl.name = o.name then storeVal P fl (o.value?.getD []) else fl

/-- The effect of one occurrence on the whole registry. -/
def applyOcc {F D : Type} (P : Platform F D) (flags : List (Flag F D)) (o : Occ) :
    List (Flag F D) :=
  flags.map (applyOne P o)

/-- Name/type signature of a registry. -/
def sigOf {F D : Type} (flags : List (Flag F D)) : List (CStr × Flag_Type) :=
  flags.map (fun fl => (fl.name, fl.type))

/-- Occurrence well-formedness against a registry signature. -/
def occOk {F D : Type} (P : Platform F D) (sig : List (CStr × Flag_Type)) : Occ → Prop
  | .obool n => goodName n ∧ (n, .FLAG_BOOL) ∈ sig
  | .oinline n v => goodName n ∧ ∃ t, (n, t) ∈ sig ∧ t ≠ .FLAG_BOOL ∧ convOk P t v
  | .osep n v => goodName n ∧ ∃ t, (n, t) ∈ sig ∧ t ≠ .FLAG_BOOL ∧ convOk P t v

/-- The values of the occurrences of one flag name, in order. -/
def valuesFor (n : CStr) (occs : List Occ) : List CStr :=
  occs.filterMap (fun o => if o.name = n then o.value? else none)

/-! #### Basic facts about the occurrence model -/

theorem storeVal_name {F D : Type} (P : Platform F D) (fl : Flag F D) (v : CStr) :
    (storeVal P fl v).name = fl.name := by
  unfold storeVal
  cases fl.type <;> rfl

theorem storeVal_type {F D : Type} (P : Platform F D) (fl : Flag F D) (v : CStr) :
    (storeVal P fl v).type = fl.type := by
  unfold storeVal
  cases fl.type <;> rfl

theorem applyOne_name {F D : Type} (P : Platform F D) (o : Occ) (fl : Flag F D) :
    (applyOne P o fl).name = fl.name := by
  unfold applyOne
  split
  · exact storeVal_name P fl _
  · rfl

theorem applyOne_type {F D : Type} (P : Platform F D) (o : Occ) (fl : Flag F D) :
    (applyOne P o fl).type = fl.type := by
  unfold applyOne
  split
  · exact storeVal_type P fl _
  · rfl

theorem sigOf_applyOcc {F D : Type} (P : Platform F D) (flags : List (Flag F D)) (o : Occ) :
    sigOf (applyOcc P flags o) = sigOf flags := by
  unfold sigOf applyOcc
  rw [List.map_map]
  apply List.map_congr_left
  intro fl hm
  simp [Function.comp, applyOne_name, applyOne_type]

theorem map_applyOne_no_match {F D : Type} (P : Platform F D) (o : Occ)
    (l : List (Flag F D)) (h : ∀ g ∈ l, g.name ≠ o.name) :
    l.map (applyOne P o) = l := by
  induction l with
  | nil => rfl
  | cons g l ih =>
    have hg := h g (List.mem_cons_self g l)
    rw [List.map_cons, ih (fun x hx => h x (List.mem_cons_of_mem g hx))]
    unfold applyOne
    rw [if_neg hg]

theorem applyOcc_decomp {F D : Type} (P : Platform F D) (o : Occ)
    (pre post : List (Flag F D)) (fl : Flag F D)
    (hpre : ∀ g ∈ pre, g.name ≠ o.name) (hpost : ∀ g ∈ post, g.name ≠ o.name)
    (hfl : fl.name = o.name) :
    applyOcc P (pre ++ fl :: post) o =
      pre ++ storeVal P fl (o.value?.getD []) :: post := by
  unfold applyOcc
  rw [List.map_append, List.map_cons, map_applyOne_no_match P o pre hpre,
    map_applyOne_no_match P o post hpost]
  unfold applyOne
  rw [if_pos hfl]

theorem valuesFor_append (n : CStr) (os : List Occ) (o : Occ) :
    valuesFor n (os ++ [o]) =
      valuesFor n os ++ (if o.name = n then o.value?.toList else []) := by
  unfold valuesFor
  rw [List.filterMap_append]
  congr 1
  cases ho : o.value? <;> split <;>
    simp_all [List.filterMap, Option.toList]

theorem flagDispatch_no_match {F D : Type} (P : Platform F D) (ign : Bool)
    (equals : Option CStr) (n : CStr) :
    ∀ (fls : List (Flag F D)) (args : List CStr) (errno found : Bool),
      (∀ g ∈ fls, g.name ≠ n) →
      flagDispatch P ign equals n fls args errno found = (fls, .ok (args, errno, found)) := by
  intro fls
  induction fls with
  | nil => intro args errno found h; rfl
  | cons g fls ih =>
    intro args errno found h
    have hg := h g (List.mem_cons_self g fls)
    simp only [flagDispatch, hg, if_false,
      ih args errno found (fun x hx => h x (List.mem_cons_of_mem g hx))]

theorem flagDispatch_unique {F D : Type} (P : Platform F D) (ign : Bool)
    (equals : Option CStr) (n : CStr) (fl fl' : Flag F D)
    (args args2 : List CStr) (errno errno2 : Bool)
    (hp : flagParseOne P ign equals fl args errno = .ok (fl', args2, errno2)) :
    ∀ (pre post : List (Flag F D)) (found : Bool),
      (∀ g ∈ pre, g.name ≠ n) → (∀ g ∈ post, g.name ≠ n) → fl.name = n →
      flagDispatch P ign equals n (pre ++ fl :: post) args errno found =
        (pre ++ fl' :: post, .ok (args2, errno2, true)) := by
  intro pre
  induction pre with
  | nil =>
    intro post found hpre hpost hfl
    simp only [List.nil_append, flagDispatch, hfl, if_true, hp,
      flagDispatch_no_match P ign equals n post args2 errno2 true hpost]
  | cons g pre ih =>
    intro post found hpre hpost hfl
    have hg := hpre g (List.mem_cons_self g pre)
    have ihh := ih post found (fun x hx => hpre x (List.mem_cons_of_mem g hx)) hpost hfl
    simp only [List.cons_append, flagDispatch, hg, if_false]
    simp [ihh]

theorem takeWhile_append_eq (n v : CStr) (h : '=' ∉ n) :
    (n ++ '=' :: v).takeWhile (fun c => c ≠ '=') = n := by
  induction n with
  | nil => simp
  | cons c cs ih =>
    have hc : c ≠ '=' := fun hcon => h (hcon ▸ List.mem_cons_self c cs)
    have hcs : '=' ∉ cs := fun hm => h (List.mem_cons_of_mem c hm)
    rw [List.cons_append, List.takeWhile_cons_of_pos (by simp [hc]), ih hcs]

theorem dropWhile_append_eq (n v : CStr) (h : '=' ∉ n) :
    (n ++ '=' :: v).dropWhile (fun c => c ≠ '=') = '=' :: v := by
  induction n with
  | nil => simp
  | cons c cs ih =>
    have hc : c ≠ '=' := fun hcon => h (hcon ▸ List.mem_cons_self c cs)
    have hcs : '=' ∉ cs := fun hm => h (List.mem_cons_of_mem c hm)
    rw [List.cons_append, List.dropWhile_cons_of_pos (by simp [hc]), ih hcs]

theorem splitAtEq_append (n v : CStr) (h : '=' ∉ n) :
    splitAtEq (n ++ '=' :: v) = (n, some v) := by
  unfold splitAtEq
  rw [dropWhile_append_eq n v h, takeWhile_append_eq n v h]

/-- A boolean flag's dispatch sets true and consumes nothing. -/
theorem flagParseOne_bool {F D : Type} (P : Platform F D) (equals : Option CStr)
    (fl : Flag F D) (args : List CStr) (errno : Bool) (ht : fl.type = .FLAG_BOOL) :
    flagParseOne P false equals fl args errno =
      .ok (storeVal P fl [], args, errno) := by
  unfold flagParseOne storeVal
  rw [ht]
  rfl

/-- A value flag's dispatch under a clean conversion stores exactly the
converted value, keeps errno clear and consumes per `getArg`. -/
theorem flagParseOne_convOk {F D : Type} (P : Platform F D) (equals : Option CStr)
    (fl : Flag F D) (v : CStr) (args args2 : List CStr)
    (hget : getArg equals args = some (v, args2)) (hcv : convOk P fl.type v) :
    flagParseOne P false equals fl args false = .ok (storeVal P fl v, args2, false) := by
  unfold flagParseOne storeVal
  unfold convOk at hcv
  cases ht : fl.type
  case FLAG_BOOL =>
    rw [ht] at hcv
    simp at hcv
  case FLAG_STR =>
    dsimp only
    rw [hget]
    rfl
  case FLAG_LIST =>
    dsimp only
    rw [hget]
    rfl
  case FLAG_LIST_MUT =>
    dsimp only
    rw [hget]
    rfl
  case FLAG_UINT64 =>
    rw [ht] at hcv
    dsimp only at hcv
    dsimp only
    rw [hget]
    dsimp only
    rw [if_neg (by simp [hcv.1]), if_neg (by simp [hcv.2])]
    simp [hcv.2]
  case FLAG_FLOAT =>
    rw [ht] at hcv
    dsimp only at hcv
    dsimp only
    rw [hget]
    dsimp only
    rw [if_neg (by simp [hcv.1]), if_neg (by simp [hcv.2])]
    simp [hcv.2]
  case FLAG_DOUBLE =>
    rw [ht] at hcv
    dsimp only at hcv
    dsimp only
    rw [hget]
    dsimp only
    rw [if_neg (by simp [hcv.1]), if_neg (by simp [hcv.2])]
    simp [hcv.2]
  case FLAG_SIZE =>
    rw [ht] at hcv
    dsimp only at hcv
    dsimp only
    rw [hget]
    dsimp only
    obtain ⟨m, hm⟩ := Option.isSome_iff_exists.1 hcv.2
    rw [hm]
    dsimp only
    rw [if_neg (by simp [hcv.1])]
    simp [hcv.1, hm]

theorem mem_sigOf_decomp {F D : Type} (flags : List (Flag F D)) (n : CStr) (t : Flag_Type)
    (hnd : (flags.map (fun fl => fl.name)).Nodup) (hmem : (n, t) ∈ sigOf flags) :
    ∃ pre fl post, flags = pre ++ fl :: post ∧ fl.name = n ∧ fl.type = t ∧
      (∀ g ∈ pre, g.name ≠ n) ∧ (∀ g ∈ post, g.name ≠ n) := by
  unfold sigOf at hmem
  obtain ⟨fl, hfl, hteq⟩ := List.mem_map.1 hmem
  injection hteq with h1 h2
  obtain ⟨pre, post, hsplit⟩ := List.append_of_mem hfl
  rw [hsplit] at hnd
  simp only [List.map_append, List.map_cons] at hnd
  rw [List.nodup_append] at hnd
  have hnotpre : fl.name ∉ pre.map (fun fl => fl.name) := by
    intro hin
    exact (hnd.2.2 hin) (List.mem_cons_self _ _)
  have hnotpost : fl.name ∉ post.map (fun fl => fl.name) := by
    intro hin
    exact (List.nodup_cons.1 hnd.2.1).1 hin
  refine ⟨pre, fl, post, hsplit, h1, h2, ?_, ?_⟩
  · intro g hg hcon
    exact hnotpre (h1 ▸ hcon ▸ List.mem_map_of_mem (fun fl => fl.name) hg)
  · intro g hg hcon
    exact hnotpost (h1 ▸ hcon ▸ List.mem_map_of_mem (fun fl => fl.name) hg)

/-- Processing one well-formed occurrence: the scanner consumes exactly its
tokens, stores its value into the unique flag of that name, and continues
with errno still clear. -/
theorem parseLoop_occ_step {F D : Type} (P : Platform F D) (pb : Bool) (fuel : Nat)
    (fc : Flag_Context F D) (processed : List CStr) (occ : Occ) (ys : List CStr)
    (hnd : (fc.flags.map (fun fl => fl.name)).Nodup)
    (hok : occOk P (sigOf fc.flags) occ) :
    parseLoop P pb (fuel + 1) fc processed (renderOcc occ ++ ys) false =
      parseLoop P pb fuel { fc with flags := applyOcc P fc.flags occ }
        (mutOcc occ ++ processed) ys false := by
  cases occ with
  | obool n =>
    obtain ⟨⟨hsl, hda, heq⟩, hmem⟩ := hok
    obtain ⟨pre, fl, post, hsplit, hn, ht, hpre, hpost⟩ :=
      mem_sigOf_decomp fc.flags n .FLAG_BOOL hnd hmem
    rw [show renderOcc (.obool n) ++ ys = ('-' :: n) :: ys from rfl]
    rw [parseLoop_flag_step P pb fuel fc processed n ys false hsl hda heq]
    have hp := flagParseOne_bool P none fl ys false ht
    have hd := flagDispatch_unique P false none n fl (storeVal P fl []) ys ys false false
      hp pre post false hpre hpost hn
    rw [hsplit, hd]
    dsimp only
    rw [if_pos rfl]
    have happ := applyOcc_decomp P (.obool n) pre post fl hpre hpost hn
    simp [happ, mutOcc, Occ.value?, Nat.sub_self]
  | osep n v =>
    obtain ⟨⟨hsl, hda, heq⟩, t, hmem, htne, hcv⟩ := hok
    obtain ⟨pre, fl, post, hsplit, hn, ht, hpre, hpost⟩ :=
      mem_sigOf_decomp fc.flags n t hnd hmem
    rw [show renderOcc (.osep n v) ++ ys = ('-' :: n) :: v :: ys from rfl]
    rw [parseLoop_flag_step P pb fuel fc processed n (v :: ys) false hsl hda heq]
    have hp := flagParseOne_convOk P none fl v (v :: ys) ys rfl (ht ▸ hcv)
    have hd := flagDispatch_unique P false none n fl (storeVal P fl v) (v :: ys) ys false false
      hp pre post false hpre hpost hn
    rw [hsplit, hd]
    dsimp only
    rw [if_pos rfl]
    have happ := applyOcc_decomp P (.osep n v) pre post fl hpre hpost hn
    simp [happ, mutOcc, Occ.value?]
  | oinline n v =>
    obtain ⟨⟨hsl, hda, heq⟩, t, hmem, htne, hcv⟩ := hok
    obtain ⟨pre, fl, post, hsplit, hn, ht, hpre, hpost⟩ :=
      mem_sigOf_decomp fc.flags n t hnd hmem
    have hdd : ('-' :: (n ++ '=' :: v)) ≠ ['-', '-'] := by
      intro hcon
      injection hcon with hx1 hx2
      cases n with
      | nil => simp at hx2
      | cons c cs => simp at hx2
    have hhq : (n ++ '=' :: v).head? ≠ some '/' := by
      cases n with
      | nil => simp
      | cons c cs =>
        simp only [List.cons_append, List.head?_cons]
        simpa using hsl
    rw [show renderOcc (.oinline n v) ++ ys = ('-' :: (n ++ '=' :: v)) :: ys from rfl]
    rw [parseLoop_cons_eq P pb fuel fc processed ('-' :: (n ++ '=' :: v)) ys false
      (by simp [headIsDash]) hdd]
    simp only [List.drop_succ_cons, List.drop_zero]
    rw [if_neg hhq]
    rw [splitAtEq_append n v heq]
    dsimp only
    have htm : ('-' :: (n ++ '=' :: v)).takeWhile (fun c => c ≠ '=') = '-' :: n := by
      rw [List.takeWhile_cons_of_pos (by simp), takeWhile_append_eq n v heq]
    rw [htm]
    have hp := flagParseOne_convOk P (some v) fl v ys ys rfl (ht ▸ hcv)
    have hd := flagDispatch_unique P false (some v) n fl (storeVal P fl v) ys ys false false
      hp pre post false hpre hpost hn
    rw [hsplit, hd]
    dsimp only
    rw [if_pos rfl]
    have happ := applyOcc_decomp P (.oinline n v) pre post fl hpre hpost hn
    simp [happ, mutOcc, Occ.value?, Nat.sub_self]

theorem parseLoop_fuel_congr {F D : Type} (P : Platform F D) (pb : Bool) :
    ∀ (fuel1 fuel2 : Nat) (fc : Flag_Context F D) (processed args : List CStr) (errno : Bool),
      args.length ≤ fuel1 → args.length ≤ fuel2 →
      parseLoop P pb fuel1 fc processed args errno =
        parseLoop P pb fuel2 fc processed args errno := by
  intro fuel1
  induction fuel1 with
  | zero =>
    intro fuel2 fc processed args errno h1 h2
    have hnil : args = [] := List.eq_nil_of_length_eq_zero (Nat.le_zero.1 h1)
    subst hnil
    cases fuel2 <;> rfl
  | succ f1 ih =>
    intro fuel2 fc processed args errno h1 h2
    cases args with
    | nil => cases fuel2 <;> rfl
    | cons tok rest =>
      cases fuel2 with
      | zero => simp at h2
      | succ f2 =>
        by_cases hx1 : headIsDash tok = false
        · simp [parseLoop, hx1]
        · have hx1t : headIsDash tok = true := by
            revert hx1
            cases headIsDash tok <;> simp
          by_cases hx2 : tok = ['-', '-']
          · simp [parseLoop, hx1, hx2, headIsDash]
          · rw [parseLoop_cons_eq P pb f1 fc processed tok rest errno hx1t hx2,
              parseLoop_cons_eq P pb f2 fc processed tok rest errno hx1t hx2]
            dsimp only
            cases hd : (flagDispatch P
                (if (List.drop 1 tok).head? = some '/' then ((true : Bool), List.drop 1 (List.drop 1 tok))
                 else ((false : Bool), List.drop 1 tok)).1
                (splitAtEq (if (List.drop 1 tok).head? = some '/' then ((true : Bool), List.drop 1 (List.drop 1 tok))
                 else ((false : Bool), List.drop 1 tok)).2).2
                (splitAtEq (if (List.drop 1 tok).head? = some '/' then ((true : Bool), List.drop 1 (List.drop 1 tok))
                 else ((false : Bool), List.drop 1 tok)).2).1
                fc.flags rest errno false).2 with
            | error e => rfl
            | ok t =>
              obtain ⟨args1, errno1, found1⟩ := t
              dsimp only
              by_cases hf : found1 = true
              · rw [if_pos hf, if_pos hf]
                have hlen := flagDispatch_ok_args_le P _ _ _ fc.flags rest errno false
                  args1 errno1 found1 hd
                have hr1 : rest.length ≤ f1 := by
                  simp only [List.length_cons] at h1
                  omega
                have hr2 : rest.length ≤ f2 := by
                  simp only [List.length_cons] at h2
                  omega
                exact ih f2 _ _ args1 errno1 (le_trans hlen hr1) (le_trans hlen hr2)
              · rw [if_neg hf, if_neg hf]

theorem names_applyOcc {F D : Type} (P : Platform F D) (flags : List (Flag F D)) (o : Occ) :
    (applyOcc P flags o).map (fun fl => fl.name) = flags.map (fun fl => fl.name) := by
  unfold applyOcc
  rw [List.map_map]
  apply List.map_congr_left
  intro fl hm
  simp [Function.comp, applyOne_name]

/-- Processing a whole well-formed occurrence sequence folds its updates
into the registry, consumes exactly its tokens, and keeps errno clear. -/
theorem parseLoop_occs {F D : Type} (P : Platform F D) (pb : Bool) :
    ∀ (occs : List Occ) (fc : Flag_Context F D) (processed ys : List CStr) (fuel : Nat),
      (renderOccs occs ++ ys).length ≤ fuel →
      (fc.flags.map (fun fl => fl.name)).Nodup →
      (∀ o ∈ occs, occOk P (sigOf fc.flags) o) →
      ∃ pr, parseLoop P pb fuel fc processed (renderOccs occs ++ ys) false =
        parseLoop P pb ys.length { fc with flags := occs.foldl (applyOcc P) fc.flags }
          (pr ++ processed) ys false := by
  intro occs
  induction occs with
  | nil =>
    intro fc processed ys fuel hfuel hnd hok
    refine ⟨[], ?_⟩
    simp only [renderOccs, List.map_nil, List.flatten_nil, List.nil_append,
      List.foldl_nil] at hfuel ⊢
    exact parseLoop_fuel_congr P pb fuel ys.length fc processed ys false hfuel (le_refl _)
  | cons occ occs ih =>
    intro fc processed ys fuel hfuel hnd hok
    have hr : renderOccs (occ :: occs) = renderOcc occ ++ renderOccs occs := by
      simp [renderOccs]
    rw [hr, List.append_assoc] at hfuel ⊢
    have hlen1 : 1 ≤ (renderOcc occ).length := by
      cases occ <;> simp [renderOcc]
    cases fuel with
    | zero =>
      exfalso
      simp only [List.length_append] at hfuel
      omega
    | succ f =>
      rw [parseLoop_occ_step P pb f fc processed occ (renderOccs occs ++ ys) hnd
        (hok occ (List.mem_cons_self occ occs))]
      have hbound : (renderOccs occs ++ ys).length ≤ f := by
        simp only [List.length_append] at hfuel ⊢
        omega
      have hnd2 : (({ fc with flags := applyOcc P fc.flags occ } :
          Flag_Context F D).flags.map (fun fl => fl.name)).Nodup := by
        simpa [names_applyOcc] using hnd
      have hok2 : ∀ o ∈ occs, occOk P
          (sigOf ({ fc with flags := applyOcc P fc.flags occ } : Flag_Context F D).flags) o := by
        intro o ho
        simpa [sigOf_applyOcc] using hok o (List.mem_cons_of_mem occ ho)
      obtain ⟨pr2, hih⟩ := ih { fc with flags := applyOcc P fc.flags occ }
        (mutOcc occ ++ processed) ys f hbound hnd2 hok2
      refine ⟨pr2 ++ mutOcc occ, ?_⟩
      rw [hih]
      simp [List.append_assoc, List.foldl_cons]

theorem applyOne_pos {F D : Type} (P : Platform F D) (o : Occ) (fl : Flag F D)
    (h : fl.name = o.name) :
    applyOne P o fl = storeVal P fl (o.value?.getD []) := by
  unfold applyOne
  rw [if_pos h]

theorem applyOne_neg {F D : Type} (P : Platform F D) (o : Occ) (fl : Flag F D)
    (h : fl.name ≠ o.name) : applyOne P o fl = fl := by
  unfold applyOne
  rw [if_neg h]

theorem foldl_applyOcc_eq_map {F D : Type} (P : Platform F D) :
    ∀ (occs : List Occ) (flags : List (Flag F D)),
      occs.foldl (applyOcc P) flags =
        flags.map (fun fl => occs.foldl (fun f o => applyOne P o f) fl) := by
  intro occs
  induction occs with
  | nil => intro flags; simp
  | cons o os ih =>
    intro flags
    rw [List.foldl_cons, ih (applyOcc P flags o)]
    unfold applyOcc
    rw [List.map_map]
    rfl

theorem foldlApply_name {F D : Type} (P : Platform F D) :
    ∀ (occs : List Occ) (fl : Flag F D),
      (occs.foldl (fun f o => applyOne P o f) fl).name = fl.name := by
  intro occs
  induction occs with
  | nil => intro fl; rfl
  | cons o os ih =>
    intro fl
    rw [List.foldl_cons, ih (applyOne P o fl), applyOne_name]

theorem foldlApply_type {F D : Type} (P : Platform F D) :
    ∀ (occs : List Occ) (fl : Flag F D),
      (occs.foldl (fun f o => applyOne P o f) fl).type = fl.type := by
  intro occs
  induction occs with
  | nil => intro fl; rfl
  | cons o os ih =>
    intro fl
    rw [List.foldl_cons, ih (applyOne P o fl), applyOne_type]

/-- Last-write-wins for a scalar projection: if a projection is set to `u v`
by every store of value `v` into a flag of this type, the folded flag holds
the projection of the last occurring value. -/
theorem foldl_scalar_char {F D : Type} {α : Type} (P : Platform F D) (fl : Flag F D)
    (π : Flag F D → α) (u : CStr → α)
    (hπ : ∀ (f : Flag F D) (v : CStr), f.type = fl.type → π (storeVal P f v) = u v) :
    ∀ (occs : List Occ),
      (∀ o ∈ occs, o.name = fl.name → o.value?.isSome = true) →
      ∀ v, (valuesFor fl.name occs).getLast? = some v →
        π (occs.foldl (fun f o => applyOne P o f) fl) = u v := by
  intro occs
  induction occs using List.reverseRecOn with
  | nil =>
    intro hvals v hlast
    simp [valuesFor] at hlast
  | append_singleton os o ih =>
    intro hvals v hlast
    rw [List.foldl_append, List.foldl_cons, List.foldl_nil]
    rw [valuesFor_append] at hlast
    by_cases ho : o.name = fl.name
    · have hsome : o.value?.isSome = true :=
        hvals o (List.mem_append_right os (List.mem_cons_self o [])) ho
      obtain ⟨v0, hv0⟩ := Option.isSome_iff_exists.1 hsome
      rw [if_pos ho, hv0] at hlast
      simp only [Option.toList, List.getLast?_append_cons, List.getLast?_singleton,
        Option.some.injEq] at hlast
      subst hlast
      rw [applyOne_pos P o _ (by rw [foldlApply_name]; exact ho.symm)]
      rw [hv0]
      exact hπ _ v0 (foldlApply_type P os fl)
    · rw [if_neg ho] at hlast
      simp only [List.append_nil] at hlast
      have hres := ih (fun x hx hxn =>
        hvals x (List.mem_append_left _ hx) hxn) v hlast
      rw [applyOne_neg P o _ (by rw [foldlApply_name]; exact fun hcon => ho hcon.symm)]
      exact hres

/-- List accumulation: a projection that every store appends to collects all
occurring values in order. -/
theorem foldl_acc_char {F D : Type} (P : Platform F D) (fl : Flag F D)
    (π : Flag F D → List CStr)
    (hπ : ∀ (f : Flag F D) (v : CStr), f.type = fl.type → π (storeVal P f v) = π f ++ [v]) :
    ∀ (occs : List Occ),
      (∀ o ∈ occs, o.name = fl.name → o.value?.isSome = true) →
      π (occs.foldl (fun f o => applyOne P o f) fl) = π fl ++ valuesFor fl.name occs := by
  intro occs
  induction occs using List.reverseRecOn with
  | nil =>
    intro hvals
    simp [valuesFor]
  | append_singleton os o ih =>
    intro hvals
    rw [List.foldl_append, List.foldl_cons, List.foldl_nil, valuesFor_append]
    by_cases ho : o.name = fl.name
    · have hsome : o.value?.isSome = true :=
        hvals o (List.mem_append_right os (List.mem_cons_self o [])) ho
      obtain ⟨v0, hv0⟩ := Option.isSome_iff_exists.1 hsome
      rw [applyOne_pos P o _ (by rw [foldlApply_name]; exact ho.symm)]
      rw [hπ _ _ (foldlApply_type P os fl)]
      rw [ih (fun x hx hxn => hvals x (List.mem_append_left _ hx) hxn)]
      rw [if_pos ho, hv0]
      simp [Option.toList]
    · rw [applyOne_neg P o _ (by rw [foldlApply_name]; exact fun hcon => ho hcon.symm)]
      rw [ih (fun x hx hxn => hvals x (List.mem_append_left _ hx) hxn)]
      rw [if_neg ho]
      simp

theorem storeVal_bool {F D : Type} (P : Platform F D) (f : Flag F D) (v : CStr)
    (hb : f.type = .FLAG_BOOL) : (storeVal P f v).val.as_bool = true := by
  unfold storeVal
  rw [hb]

/-- A boolean flag with at least one occurrence of its name ends up true. -/
theorem foldl_bool_char {F D : Type} (P : Platform F D) (fl : Flag F D)
    (hbt : fl.type = .FLAG_BOOL) :
    ∀ (occs : List Occ), (∃ o ∈ occs, o.name = fl.name) →
      (occs.foldl (fun f o => applyOne P o f) fl).val.as_bool = true := by
  intro occs
  induction occs using List.reverseRecOn with
  | nil =>
    intro hex
    simp at hex
  | append_singleton os o ih =>
    intro hex
    rw [List.foldl_append, List.foldl_cons, List.foldl_nil]
    by_cases ho : o.name = fl.name
    · rw [applyOne_pos P o _ (by rw [foldlApply_name]; exact ho.symm)]
      exact storeVal_bool P _ _ ((foldlApply_type P os fl).trans hbt)
    · rw [applyOne_neg P o _ (by rw [foldlApply_name]; exact fun hcon => ho hcon.symm)]
      apply ih
      obtain ⟨o2, ho2, ho2n⟩ := hex
      rcases List.mem_append.1 ho2 with h | h
      · exact ⟨o2, h, ho2n⟩
      · exfalso
        rw [List.mem_singleton.1 h] at ho2n
        exact ho ho2n

/-- Well-formed occurrences of a non-boolean flag's name always carry a
value. -/
theorem hvals_of_occOk {F D : Type} (P : Platform F D) (flags : List (Flag F D))
    (fl : Flag F D) (occs : List Occ)
    (hnd : (flags.map (fun g => g.name)).Nodup)
    (hok : ∀ o ∈ occs, occOk P (sigOf flags) o)
    (hfl : fl ∈ flags) (hne : fl.type ≠ .FLAG_BOOL) :
    ∀ o ∈ occs, o.name = fl.name → o.value?.isSome = true := by
  intro o ho hon
  cases o with
  | obool n =>
    exfalso
    obtain ⟨hg, hmem⟩ := hok (.obool n) ho
    unfold sigOf at hmem
    obtain ⟨fl2, hfl2, hteq⟩ := List.mem_map.1 hmem
    injection hteq with h1 h2
    have hnn : n = fl.name := hon
    have heqfl : fl2 = fl :=
      List.inj_on_of_nodup_map hnd hfl2 hfl (by rw [h1, hnn])
    rw [heqfl] at h2
    exact hne h2
  | oinline n v => rfl
  | osep n v => rfl

/-- Per-flag result of parsing a well-formed occurrence sequence: name and
type unchanged; a boolean flag that occurred is true; a scalar flag holds
the converted value of its last occurrence; a list flag accumulates all its
occurring values in order. -/
def occResult {F D : Type} (P : Platform F D) (occs : List Occ) (fl0 fl : Flag F D) : Prop :=
  fl.name = fl0.name ∧ fl.type = fl0.type ∧
  match fl0.type with
  | .FLAG_BOOL => (∃ oc ∈ occs, oc.name = fl0.name) → fl.val.as_bool = true
  | .FLAG_STR => ∀ v, (valuesFor fl0.name occs).getLast? = some v →
      fl.val.as_str = some v
  | .FLAG_UINT64 => ∀ v, (valuesFor fl0.name occs).getLast? = some v →
      fl.val.as_uint64 = (flag_strtoull v).1
  | .FLAG_SIZE => ∀ v, (valuesFor fl0.name occs).getLast? = some v →
      fl.val.as_size =
        (flag__size_calculate_multiplier (flag_strtoull v).2.1 (flag_strtoull v).1).getD 0
  | .FLAG_FLOAT => ∀ v, (valuesFor fl0.name occs).getLast? = some v →
      fl.val.as_float = (P.strtof v).1
  | .FLAG_DOUBLE => ∀ v, (valuesFor fl0.name occs).getLast? = some v →
      fl.val.as_double = (P.strtod v).1
  | .FLAG_LIST => fl.val.as_list = fl0.val.as_list ++ valuesFor fl0.name occs
  | .FLAG_LIST_MUT => fl.val.as_list_mut = fl0.val.as_list_mut ++ valuesFor fl0.name occs

/-- C1: for every argument vector made of well-formed occurrences of
registered flag names (registry names distinct), `flag_c_parse` succeeds,
leaves errno clear and `rest` empty, and afterwards every scalar flag that
occurred holds the converted value of its last occurrence while every list
flag holds all of its occurring values appended in order. -/
theorem claim_C1 {F D : Type} (P : Platform F D) (pb : Bool)
    (fc : Flag_Context F D) (occs : List Occ) (pn : CStr)
    (hpn : fc.program_name = some pn)
    (hnd : (fc.flags.map (fun fl => fl.name)).Nodup)
    (hok : ∀ o ∈ occs, occOk P (sigOf fc.flags) o) :
    ∃ o : Outcome F D,
      flag_c_parse P pb fc (renderOccs occs) false = some o ∧
      o.ok = true ∧ o.errno = false ∧ o.fc.rest = [] ∧
      List.Forall₂ (occResult P occs) fc.flags o.fc.flags := by
  obtain ⟨pr, hloop⟩ := parseLoop_occs P pb occs fc [] [] (renderOccs occs).length
    (by simp) hnd hok
  rw [List.append_nil] at hloop
  have hfin : flag_c_parse P pb fc (renderOccs occs) false
      = some (parseLoop P pb (renderOccs occs).length fc [] (renderOccs occs) false) := by
    unfold flag_c_parse
    rw [hpn]
  refine ⟨⟨true,
    { fc with flags := occs.foldl (applyOcc P) fc.flags, rest := [] },
    (pr ++ ([] : List CStr)).reverse, false⟩, ?_, rfl, rfl, rfl, ?_⟩
  · rw [hfin, hloop]
    rfl
  · show List.Forall₂ (occResult P occs) fc.flags (occs.foldl (applyOcc P) fc.flags)
    rw [foldl_applyOcc_eq_map, List.forall₂_map_right_iff, List.forall₂_same]
    intro fl hfl
    refine ⟨foldlApply_name P occs fl, foldlApply_type P occs fl, ?_⟩
    cases ht : fl.type with
    | FLAG_BOOL =>
      exact foldl_bool_char P fl ht occs
    | FLAG_STR =>
      intro v hlast
      exact foldl_scalar_char P fl (fun f => f.val.as_str) (fun w => some w)
        (by intro f w hft; unfold storeVal; rw [hft, ht]) occs
        (hvals_of_occOk P fc.flags fl occs hnd hok hfl (by rw [ht]; simp)) v hlast
    | FLAG_UINT64 =>
      intro v hlast
      exact foldl_scalar_char P fl (fun f => f.val.as_uint64) (fun w => (flag_strtoull w).1)
        (by intro f w hft; unfold storeVal; rw [hft, ht]) occs
        (hvals_of_occOk P fc.flags fl occs hnd hok hfl (by rw [ht]; simp)) v hlast
    | FLAG_SIZE =>
      intro v hlast
      exact foldl_scalar_char P fl (fun f => f.val.as_size)
        (fun w => (flag__size_calculate_multiplier (flag_strtoull w).2.1
          (flag_strtoull w).1).getD 0)
        (by intro f w hft; unfold storeVal; rw [hft, ht]) occs
        (hvals_of_occOk P fc.flags fl occs hnd hok hfl (by rw [ht]; simp)) v hlast
    | FLAG_FLOAT =>
      intro v hlast
      exact foldl_scalar_char P fl (fun f => f.val.as_float) (fun w => (P.strtof w).1)
        (by intro f w hft; unfold storeVal; rw [hft, ht]) occs
        (hvals_of_occOk P fc.flags fl occs hnd hok hfl (by rw [ht]; simp)) v hlast
    | FLAG_DOUBLE =>
      intro v hlast
      exact foldl_scalar_char P fl (fun f => f.val.as_double) (fun w => (P.strtod w).1)
        (by intro f w hft; unfold storeVal; rw [hft, ht]) occs
        (hvals_of_occOk P fc.flags fl occs hnd hok hfl (by rw [ht]; simp)) v hlast
    | FLAG_LIST =>
      exact foldl_acc_char P fl (fun f => f.val.as_list)
        (by intro f w hft; unfold storeVal; rw [hft, ht]) occs
        (hvals_of_occOk P fc.flags fl occs hnd hok hfl (by rw [ht]; simp))
    | FLAG_LIST_MUT =>
      exact foldl_acc_char P fl (fun f => f.val.as_list_mut)
        (by intro f w hft; unfold storeVal; rw [hft, ht]) occs
        (hvals_of_occOk P fc.flags fl occs hnd hok hfl (by rw [ht]; simp))

/-- Closed instance of the C1 theorem: registry with a uint64 flag `a` and a
string flag `s`, occurrence sequence `-a 42 -s=x -a 7`. -/
theorem claim_C1_witness :
    ∃ o : Outcome Unit Unit,
      flag_c_parse unitPlatform false
        (ctxU [uint64FlagU ['a'] 0, strFlagU ['s'] none])
        (renderOccs [.osep ['a'] ['4', '2'], .oinline ['s'] ['x'], .osep ['a'] ['7']])
        false = some o ∧
      o.ok = true ∧ o.errno = false ∧ o.fc.rest = [] ∧
      List.Forall₂
        (occResult unitPlatform [.osep ['a'] ['4', '2'], .oinline ['s'] ['x'],
          .osep ['a'] ['7']])
        (ctxU [uint64FlagU ['a'] 0, strFlagU ['s'] none]).flags o.fc.flags :=
  claim_C1 unitPlatform false (ctxU [uint64FlagU ['a'] 0, strFlagU ['s'] none])
    [.osep ['a'] ['4', '2'], .oinline ['s'] ['x'], .osep ['a'] ['7']] ['p'] rfl (by decide)
    (by
      intro o ho
      fin_cases ho
      · exact ⟨⟨by decide, by decide, by decide⟩,
          ⟨.FLAG_UINT64, by decide, by decide, ⟨by decide, by decide⟩⟩⟩
      · exact ⟨⟨by decide, by decide, by decide⟩,
          ⟨.FLAG_STR, by decide, by decide, trivial⟩⟩
      · exact ⟨⟨by decide, by decide, by decide⟩,
          ⟨.FLAG_UINT64, by decide, by decide, ⟨by decide, by decide⟩⟩⟩)

/-! ### C8: range-constrained integer flags (spec-modelled) -/

/-- Modelled from the spec: the result of a parse in the presence of an
inclusive range constraint on one uint64 flag — either the underlying parse
failed, or the converted value fell outside the bound (a failure distinct
from every parse-level error), or everything succeeded. -/
inductive Ranged_Result (F D : Type) where
  | parse_failed (o : Outcome F D)
  | out_of_range (name : CStr) (v : Nat)
  | ok (o : Outcome F D)
deriving DecidableEq

/-- Modelled from the spec: the stored value of the uint64 flag named
`name` after a parse. -/
def rangedValue {F D : Type} (o : Outcome F D) (name : CStr) : Option Nat :=
  (o.fc.flags.find? (fun f => f.name == name && f.type == .FLAG_UINT64)).map
    (fun f => f.val.as_uint64)

/-- Modelled from the spec: the inclusive bound `[lo, hi]` attached by
`SetRangeConstraint` is checked at parse time, after conversion; an
out-of-range value is rejected as a distinct failure. -/
def rangeCheck {F D : Type} (lo hi : Nat) (name : CStr) (o : Outcome F D) :
    Ranged_Result F D :=
  if o.ok = false then .parse_failed o
  else match rangedValue o name with
    | none => .ok o
    | some v => if lo ≤ v ∧ v ≤ hi then .ok o else .out_of_range name v

/-- Modelled from the spec: parsing with a range-constrained uint64 flag is
the plain parse followed by the bound check. -/
def flag_c_parse_ranged {F D : Type} (P : Platform F D) (pushBack : Bool)
    (name : CStr) (lo hi : Nat) (fc : Flag_Context F D) (argv : List CStr)
    (errno : Bool) : Option (Ranged_Result F D) :=
  (flag_c_parse P pushBack fc argv errno).map (rangeCheck lo hi name)

/-- C8: for a uint64 flag `c` bounded to `[0, 1024]`, supplying `2000` makes
the ranged parse fail with the distinct out-of-range failure carrying the
flag name and the offending value, supplying `512` succeeds and stores
exactly 512, and in general any successfully parsed value outside the bound
is rejected as the out-of-range failure. -/
theorem claim_C8 :
    (flag_c_parse_ranged unitPlatform false ['c'] 0 1024 (ctxU [uint64FlagU ['c'] 64])
        [['-', 'c'], ['2', '0', '0', '0']] false
      = some (.out_of_range ['c'] 2000)) ∧
    ((flag_c_parse_ranged unitPlatform false ['c'] 0 1024 (ctxU [uint64FlagU ['c'] 64])
        [['-', 'c'], ['5', '1', '2']] false).map
      (fun r => match r with
        | .ok o => some (o.fc.flags.map (fun f => f.val.as_uint64))
        | .parse_failed _ => none
        | .out_of_range _ _ => none) = some (some [512])) ∧
    (∀ (lo hi : Nat) (name : CStr) (o : Outcome Unit Unit) (v : Nat),
      rangedValue o name = some v → o.ok = true → ¬(lo ≤ v ∧ v ≤ hi) →
      rangeCheck lo hi name o = .out_of_range name v) := by
  refine ⟨by decide, by decide, ?_⟩
  intro lo hi name o v hv hok2 hrange
  unfold rangeCheck
  rw [hok2, if_neg (by decide), hv]
  dsimp only
  rw [if_neg hrange]

/-- Closed instance of the general part of C8: a finished outcome whose `c`
flag holds 2000 is rejected by the bound `[0, 1024]`. -/
theorem claim_C8_witness :
    rangeCheck 0 1024 ['c']
      (⟨true, ctxU [uint64FlagU ['c'] 2000], [], false⟩ : Outcome Unit Unit)
      = .out_of_range ['c'] 2000 :=
  claim_C8.2.2 0 1024 ['c'] ⟨true, ctxU [uint64FlagU ['c'] 2000], [], false⟩ 2000
    (by decide) rfl (by decide)

end FlagH
